import Mathlib

/-!
Verification development for the medical-dictionary ETL utility
(CSV → PostgreSQL importer and PostgreSQL → Mozc TSV exporter).

The Lean definitions below are a shallow embedding of the Python sources:

  * `import_csv.py`   — `get_or_create_pos_code`, `get_or_create_attr_id`,
                        `import_csv`
  * `db_utils.py`     — `_env`, `get_env_config`, `_merge_cli_env`,
                        `get_db_connection_from_args`, `initialize_database`,
                        `execute_with_retry`
  * `generate_mozc_dict.py` — `generate_tsv`
  * `supabase_utils.py`     — `PostgreSQLWrapper.rpc`

Database state is modelled explicitly: a `DB` record holds the three tables
(`pos_codes`, `attr_codes`, `words`) together with their serial counters, and
a `Session` holds the committed store plus the transaction-local view, so that
`conn.commit()` / `conn.rollback()` become pure state operations.  PostgreSQL
tuple headers are modelled to the extent the code inspects them: every stored
tuple carries an `xmin` field holding the (nonzero) id of the transaction that
wrote it, which is what the importer's `SELECT xmin = 0` classification reads.
Timestamps (`CURRENT_TIMESTAMP`, constant within one transaction) are a `now`
parameter of each import run.
-/

/-! ## Word-table core (the `words` table of `db_utils.initialize_database`) -/

/-- Row of the `words` table.  `xmin` models the PostgreSQL tuple header
field of the same name: the id of the transaction that wrote the current
tuple version (a valid transaction id, hence never 0). -/
structure WordRow where
  id : Nat
  reading : String
  word : String
  pos_code : Nat
  attr_id : Nat
  collocation : String
  created_at : Nat
  updated_at : Nat
  xmin : Nat
deriving Repr, DecidableEq

/-- The `words` table state: the rows plus the serial counter for `id`. -/
abbrev WT := List WordRow × Nat

/-- Predicate matching a word row against the `(reading, word, pos_code)`
unique key, as used in the `ON CONFLICT` clause and in the follow-up
`SELECT ... WHERE reading=%s AND word=%s AND pos_code=%s` of `import_csv`. -/
def keyMatches (rd wd : String) (pc : Nat) (r : WordRow) : Bool :=
  r.reading == rd && r.word == wd && r.pos_code == pc

/-- Payload of one word upsert: the five columns supplied by
`import_csv`'s `INSERT INTO words ... ON CONFLICT ... DO UPDATE`. -/
structure Op where
  reading : String
  word : String
  pos_code : Nat
  attr_id : Nat
  collocation : String
deriving Repr, DecidableEq

/-- Key match for an upsert payload. -/
def opMatches (o : Op) (r : WordRow) : Bool :=
  keyMatches o.reading o.word o.pos_code r

/-- Effect of the upsert statement of `import_csv` (lines 75–86) on the
`words` table: insert if the `(reading, word, pos_code)` key is absent;
on conflict update `collocation`, `attr_id` and `updated_at` of the
conflicting row.  `txid` is the current transaction id (recorded in the
tuple's `xmin`), `now` is `CURRENT_TIMESTAMP`.  `updRow` is the
`DO UPDATE SET collocation = ..., attr_id = ..., updated_at =
CURRENT_TIMESTAMP` branch applied to the conflicting tuple (the rewritten
tuple version records the updating transaction in `xmin`). -/
def updRow (txid now : Nat) (o : Op) (r : WordRow) : WordRow :=
  { r with collocation := o.collocation, attr_id := o.attr_id,
           updated_at := now, xmin := txid }

/-- The tuple created by the non-conflicting `INSERT` branch: fresh serial
`id`, the payload columns, both timestamps set to `CURRENT_TIMESTAMP`. -/
def insRow (txid now : Nat) (nextId : Nat) (o : Op) : WordRow :=
  { id := nextId, reading := o.reading, word := o.word,
    pos_code := o.pos_code, attr_id := o.attr_id,
    collocation := o.collocation, created_at := now,
    updated_at := now, xmin := txid }

def applyOp (txid now : Nat) (w : WT) (o : Op) : WT :=
  if w.1.any (opMatches o) then
    (w.1.map fun r => if opMatches o r then updRow txid now o r else r, w.2)
  else
    (w.1 ++ [insRow txid now w.2 o], w.2 + 1)

/-! ## Database and session state -/

/-- The relational store: the two reference tables with their serial
counters, and the word table. -/
structure DB where
  pos_codes : List (Nat × String)
  pos_next : Nat
  attr_codes : List (Nat × String)
  attr_next : Nat
  words : List WordRow
  word_next : Nat
deriving Repr, DecidableEq

/-- The `words` table portion of a `DB`. -/
def DB.wordsState (db : DB) : WT := (db.words, db.word_next)

/-- Replace the `words` table portion of a `DB`. -/
def DB.setWords (db : DB) (w : WT) : DB :=
  { db with words := w.1, word_next := w.2 }

/-- One psycopg2 connection: the committed store plus the current
transaction-local view. -/
structure Session where
  committed : DB
  current : DB
deriving Repr, DecidableEq

/-- Model of `conn.commit()`. -/
def Session.commit (s : Session) : Session := ⟨s.current, s.current⟩

/-- Model of `conn.rollback()`: the transaction-local view reverts to the
committed store. -/
def Session.rollback (s : Session) : Session := ⟨s.committed, s.committed⟩

/-- The query `SELECT code FROM pos_codes WHERE name = %s` (first match). -/
def posLookup (db : DB) (name : String) : Option Nat :=
  (db.pos_codes.find? fun p => p.2 == name).map (·.1)

/-- The query `SELECT id FROM attr_codes WHERE name = %s` (first match). -/
def attrLookup (db : DB) (name : String) : Option Nat :=
  (db.attr_codes.find? fun p => p.2 == name).map (·.1)

/-! ## `import_csv.py` -/

/-- `import_csv.get_or_create_pos_code` (lines 25–30): look up the part of
speech by name; despite its name it never inserts.  `none` models the
raised `ValueError` (未知の品詞). -/
def get_or_create_pos_code (db : DB) (pos_name : String) : Option Nat :=
  posLookup db pos_name

/-- `import_csv.get_or_create_attr_id` (lines 33–52), happy path (the
`INSERT ... RETURNING id` does not raise): look up the attribute by name;
if absent, insert it with the next serial id and `conn.commit()`. -/
def get_or_create_attr_id (s : Session) (attr_name : String) : Nat × Session :=
  match attrLookup s.current attr_name with
  | some i => (i, s)
  | none =>
      let i := s.current.attr_next
      let db := { s.current with
                    attr_codes := s.current.attr_codes ++ [(i, attr_name)],
                    attr_next := i + 1 }
      (i, Session.commit ⟨s.committed, db⟩)

/-- `import_csv.get_or_create_attr_id` including its `except Error` branch.
`insertRaises` is true when the `INSERT` statement raises a psycopg2
`Error` (e.g. a uniqueness violation caused by a concurrent creator);
`storeAtReread` is the committed store visible after the `conn.rollback()`
(it contains whatever a concurrent transaction committed).  `Except.error ()`
models the bare `raise` re-raising the original error. -/
def get_or_create_attr_id_raceable (s : Session) (attr_name : String)
    (insertRaises : Bool) (storeAtReread : DB) :
    Except Unit (Nat × Session) :=
  match attrLookup s.current attr_name with
  | some i => .ok (i, s)
  | none =>
      if insertRaises then
        match attrLookup storeAtReread attr_name with
        | some i => .ok (i, ⟨storeAtReread, storeAtReread⟩)
        | none => .error ()
      else
        let i := s.current.attr_next
        let db := { s.current with
                      attr_codes := s.current.attr_codes ++ [(i, attr_name)],
                      attr_next := i + 1 }
        .ok (i, Session.commit ⟨s.committed, db⟩)

/-- Per-row outcome of the importer's loop body. -/
inductive RowOutcome where
  | ins
  | upd
  | skip
  | err
deriving Repr, DecidableEq

/-- Loop body of `import_csv.import_csv` (lines 63–104) for one CSV row.

* fewer than 5 fields → counted `skip` (lines 64–67);
* exactly 5 fields: resolve `pos_name` (a miss raises `ValueError`, caught
  at line 98 → `skip`), resolve-or-create `attr_name`, then run the upsert
  and the `SELECT xmin = 0` classification (lines 88–96): the row counts as
  `ins` exactly when the freshly written tuple's `xmin` equals 0;
* `dbFail` models a psycopg2 `Error` raised by the row's word-table
  statement: caught at line 101, `conn.rollback()`, counted `err`;
* more than 5 fields: the tuple unpacking at line 69 raises an uncaught
  `ValueError`, aborting the import — modelled as `none`; likewise `none`
  models the (unreachable) `fetchone()[0]` on an empty classification
  result, which would raise an uncaught `TypeError`. -/
def processRow (s : Session) (txid now : Nat) (dbFail : Bool)
    (row : List String) : Option (Session × RowOutcome) :=
  if row.length < 5 then some (s, .skip)
  else
    match row with
    | [reading, word, pos_name, attr_name, collocation] =>
        match get_or_create_pos_code s.current pos_name with
        | none => some (s, .skip)
        | some pos_code =>
            let p := get_or_create_attr_id s attr_name
            if dbFail then some (Session.rollback p.2, .err)
            else
              let s2 := { p.2 with
                            current := p.2.current.setWords
                              (applyOp txid now p.2.current.wordsState
                                ⟨reading, word, pos_code, p.1, collocation⟩) }
              match s2.current.words.find? (keyMatches reading word pos_code) with
              | none => none
              | some wr =>
                  if wr.xmin == 0 then some (s2, .ins) else some (s2, .upd)
    | _ => none

/-- The four counters reported by `import_csv`. -/
structure Counts where
  inserted : Nat
  updated : Nat
  skipped : Nat
  errors : Nat
deriving Repr, DecidableEq

/-- Increment the counter selected by a row outcome. -/
def Counts.bump (c : Counts) : RowOutcome → Counts
  | .ins => { c with inserted := c.inserted + 1 }
  | .upd => { c with updated := c.updated + 1 }
  | .skip => { c with skipped := c.skipped + 1 }
  | .err => { c with errors := c.errors + 1 }

/-- The row loop of `import_csv.import_csv`, rows numbered from 1
(`enumerate(reader, start=1)`); the final `conn.commit()` (line 106) runs
after the last row.  `dbFail n` tells whether row number `n`'s word-table
statement raises a psycopg2 `Error`.  `none` propagates an uncaught
exception to the caller. -/
def importAux (txid now : Nat) (dbFail : Nat → Bool) :
    Session → Nat → Counts → List (List String) → Option (Session × Counts)
  | s, _, c, [] => some (Session.commit s, c)
  | s, rowNum, c, row :: rest =>
      match processRow s txid now (dbFail rowNum) row with
      | none => none
      | some (s9, o) => importAux txid now dbFail s9 (rowNum + 1) (c.bump o) rest

/-- `import_csv.import_csv` (lines 55–112): run the row loop over the parsed
CSV rows starting with all counters at 0, committing once at the end. -/
def import_csv (s : Session) (txid now : Nat) (dbFail : Nat → Bool)
    (rows : List (List String)) : Option (Session × Counts) :=
  importAux txid now dbFail s 1 ⟨0, 0, 0, 0⟩ rows

/-- A `dbFail` oracle under which no word-table statement raises. -/
def noFail : Nat → Bool := fun _ => false

/-! ## `db_utils.initialize_database` (data part) -/

/-- One `INSERT INTO pos_codes (name) VALUES (%s) ON CONFLICT (name) DO
NOTHING`: seed a part-of-speech name unless already present. -/
def seedPos (db : DB) (name : String) : DB :=
  if (posLookup db name).isSome then db
  else { db with pos_codes := db.pos_codes ++ [(db.pos_next, name)],
                 pos_next := db.pos_next + 1 }

/-- Data effect of `db_utils.initialize_database` (lines 196–204): seed the
two fixed part-of-speech rows and commit.  (Table/trigger creation is pure
schema DDL with no data content to model.) -/
def initialize_database (s : Session) : Session :=
  Session.commit ⟨s.committed, seedPos (seedPos s.current "固有名詞") "普通名詞"⟩

/-- A completely empty store (all tables empty, serial counters at 1). -/
def emptyDB : DB := ⟨[], 1, [], 1, [], 1⟩

/-- An empty, freshly initialized schema: `initialize_database` applied to
the empty store. -/
def freshSession : Session := initialize_database ⟨emptyDB, emptyDB⟩

/-! ## String ordering and TSV line building

PostgreSQL's `ORDER BY w.reading, w.word` is modelled with a lexicographic
order on the sequence of Unicode code points (C collation). -/

/-- Strict lexicographic order on character lists by code point. -/
def lexLt : List Char → List Char → Bool
  | [], [] => false
  | [], _ :: _ => true
  | _ :: _, [] => false
  | a :: as, b :: bs =>
      if a.toNat < b.toNat then true
      else if a.toNat = b.toNat then lexLt as bs
      else false

/-- Strict lexicographic order on strings by code point. -/
def strLt (s t : String) : Bool := lexLt s.data t.data

/-! ## `generate_mozc_dict.py` -/

/-- One fetched row of `SELECT w.reading, w.word, p.name AS pos_name`. -/
structure JoinedRow where
  reading : String
  word : String
  pos_name : String
deriving Repr, DecidableEq

/-- The `ORDER BY w.reading, w.word` comparison: ascending on `reading`,
tie-broken ascending on `word`. -/
def joinedLe (a b : JoinedRow) : Bool :=
  strLt a.reading b.reading ||
    (a.reading == b.reading && (strLt a.word b.word || a.word == b.word))

/-- The `FROM words w JOIN pos_codes p ON p.code = w.pos_code` of the
export query of `generate_mozc_dict.generate_tsv` (lines 24–31): each word
row paired with its part-of-speech name; words whose `pos_code` has no
match in `pos_codes` are dropped by the inner join. -/
def joinRows (db : DB) : List JoinedRow :=
  db.words.filterMap fun w =>
    (db.pos_codes.find? fun p => p.1 == w.pos_code).map fun p =>
      ⟨w.reading, w.word, p.2⟩

/-- The full export query of `generate_mozc_dict.generate_tsv`: the join,
ordered by `(reading, word)` ascending. -/
def fetchWordsWithPos (db : DB) : List JoinedRow :=
  (joinRows db).mergeSort joinedLe

/-- Line construction of `generate_tsv` (lines 36–42): 固有名詞 rows map to
cost fields `1920 1920 4001`, 普通名詞 rows to `1851 1851 4000`, any other
part of speech is logged and skipped (`none`). -/
def lineOf (r : JoinedRow) : Option String :=
  if r.pos_name == "固有名詞" then
    some (r.reading ++ "\t1920\t1920\t4001\t" ++ r.word)
  else if r.pos_name == "普通名詞" then
    some (r.reading ++ "\t1851\t1851\t4000\t" ++ r.word)
  else none

/-- The output loop of `generate_tsv` (lines 33–47): `generated` is the set
of already-emitted lines, `acc` the emitted lines in reverse order, `count`
the number of unique lines written.  A line already in `generated` is
suppressed and not recounted. -/
def tsvLoop : List JoinedRow → List String → List String → Nat → List String × Nat
  | [], _, acc, count => (acc.reverse, count)
  | r :: rest, generated, acc, count =>
      match lineOf r with
      | none => tsvLoop rest generated acc count
      | some line =>
          if line ∈ generated then tsvLoop rest generated acc count
          else tsvLoop rest (line :: generated) (line :: acc) (count + 1)

/-- `generate_mozc_dict.generate_tsv` (lines 18–52): fetch the joined,
sorted rows and run the dedup/output loop; returns the emitted lines in
order and the reported unique-line count. -/
def generate_tsv (db : DB) : List String × Nat :=
  tsvLoop (fetchWordsWithPos db) [] [] 0

/-- Bytes written to the destination: each emitted line is terminated by a
newline (`print(line, file=out_fp)`). -/
def tsvText (lines : List String) : String :=
  String.join (lines.map (· ++ "\n"))

/-- One full exporter run against a database state: the `SELECT` leaves the
store unchanged, and the run yields the written bytes plus the reported
count. -/
def exportRun (db : DB) : DB × String × Nat :=
  (db, tsvText (generate_tsv db).1, (generate_tsv db).2)

/-- Specification-side dedup (not from the source, used to state what the
loop computes): keep the first occurrence of each line, given the set
`seen` of lines already emitted. -/
def dedupFirst (seen : List String) : List String → List String
  | [] => []
  | l :: rest =>
      if l ∈ seen then dedupFirst seen rest
      else l :: dedupFirst (l :: seen) rest

/-! ## `supabase_utils.py` — duck-typed wrapper over a direct connection -/

/-- The SQL executed by `PostgreSQLWrapper.rpc` for the function name
`get_words_with_pos` (supabase_utils lines 155–160), translated on its own
from that source site: join `words` to `pos_codes` on
`p.code = w.pos_code`, order by `w.reading, w.word`. -/
def rpc_get_words_with_pos (db : DB) : List JoinedRow :=
  (db.words.filterMap fun w =>
    (db.pos_codes.find? fun p => p.1 == w.pos_code).map fun p =>
      (⟨w.reading, w.word, p.2⟩ : JoinedRow)).mergeSort joinedLe

/-- `supabase_utils.PostgreSQLWrapper.rpc` (lines 143–167): the name
`get_words_with_pos` runs the join query and returns its rows; any other
function name raises `ValueError` (未対応のRPC関数). -/
def PostgreSQLWrapper.rpc (db : DB) (function_name : String) :
    Except String (List JoinedRow) :=
  if function_name == "get_words_with_pos" then
    .ok (rpc_get_words_with_pos db)
  else
    .error ("未対応のRPC関数: " ++ function_name)

/-! ## `db_utils.py` — connection configuration -/

/-- The relevant process environment: raw values of the five `PG_*`
variables (`none` = unset). -/
structure EnvVars where
  pg_host : Option String
  pg_port : Option String
  pg_database : Option String
  pg_user : Option String
  pg_password : Option String
deriving Repr, DecidableEq

/-- `db_utils._env` (lines 24–27): read an environment variable treating
the empty string as unset (Python truthiness of `val`). -/
def _env (raw : Option String) (dflt : Option String) : Option String :=
  match raw with
  | some v => if v == "" then dflt else some v
  | none => dflt

/-- The merged connection configuration record. -/
structure PgConfig where
  host : Option String
  port : Option Int
  database : Option String
  user : Option String
  password : Option String
deriving Repr, DecidableEq

/-- `db_utils.get_env_config` (lines 30–38): environment-derived
configuration with defaults `localhost` / `5432` for host and port.
`none` models the `ValueError` raised by `int()` when `PG_PORT` is set,
nonempty and not a valid integer literal (integer parsing of the decimal
string is modelled by `String.toInt?`). -/
def get_env_config (env : EnvVars) : Option PgConfig :=
  match _env env.pg_port none with
  | none =>
      some ⟨_env env.pg_host (some "localhost"), some 5432,
            _env env.pg_database none, _env env.pg_user none,
            _env env.pg_password none⟩
  | some s =>
      (s.toInt?).map fun p =>
        ⟨_env env.pg_host (some "localhost"), some p,
         _env env.pg_database none, _env env.pg_user none,
         _env env.pg_password none⟩

/-- Parsed CLI flags (`add_common_args`): each is `none` when the flag was
not given; `--port` is `int`-typed by argparse. -/
structure CliArgs where
  host : Option String
  port : Option Int
  database : Option String
  user : Option String
  password : Option String
deriving Repr, DecidableEq

/-- Python truthiness of an optional string (`getattr(args, k, None)`):
true exactly for a present, nonempty value. -/
def truthyStr : Option String → Bool
  | some v => v != ""
  | none => false

/-- Python truthiness of an optional int: true exactly for a present,
nonzero value. -/
def truthyInt : Option Int → Bool
  | some v => v != 0
  | none => false

/-- The final `if v == "": cfg[k] = None` pass of `_merge_cli_env`
(lines 81–83) on a string field. -/
def scrubEmpty : Option String → Option String
  | some v => if v == "" then none else some v
  | none => none

/-- `db_utils._merge_cli_env` (lines 65–85): start from the
environment-derived configuration, overwrite each field with the CLI value
when that value is truthy, then map any empty-string value to `None`.
(The `v == ""` test is vacuous for the int-typed `port`.) -/
def _merge_cli_env (args : CliArgs) (env : EnvVars) : Option PgConfig :=
  (get_env_config env).map fun cfg0 =>
    let cfg1 := if truthyStr args.host then { cfg0 with host := args.host } else cfg0
    let cfg2 := if truthyInt args.port then { cfg1 with port := args.port } else cfg1
    let cfg3 := if truthyStr args.database then { cfg2 with database := args.database } else cfg2
    let cfg4 := if truthyStr args.user then { cfg3 with user := args.user } else cfg3
    let cfg5 := if truthyStr args.password then { cfg4 with password := args.password } else cfg4
    { cfg5 with host := scrubEmpty cfg5.host,
                database := scrubEmpty cfg5.database,
                user := scrubEmpty cfg5.user,
                password := scrubEmpty cfg5.password }

/-- Python falsiness of an optional string (`not cfg["database"]`). -/
def optionFalsy : Option String → Bool
  | some v => v == ""
  | none => true

/-- Result of `db_utils.get_db_connection_from_args` (lines 88–112, the
effective, second definition of that name in the module) up to the point
where `psycopg2.connect` is invoked: either the `int()` parse error from
`get_env_config`, or the explicit missing-database `ValueError`, or the
configuration handed to `psycopg2.connect`.  A connection is attempted
only in the `connect` case. -/
inductive ConnAttempt where
  | portParseError
  | configError (msg : String)
  | connect (cfg : PgConfig)
deriving Repr, DecidableEq

/-- Exact diagnostic raised when the merged database name is falsy. -/
def dbMissingMsg : String :=
  "データベース名が指定されていません（--database または PG_DATABASE）"

/-- `db_utils.get_db_connection_from_args` (lines 88–110): merge CLI and
environment, fail with the missing-database message when the merged
database name is falsy, otherwise hand the configuration to
`psycopg2.connect`. -/
def get_db_connection_from_args (args : CliArgs) (env : EnvVars) : ConnAttempt :=
  match _merge_cli_env args env with
  | none => .portParseError
  | some cfg =>
      if optionFalsy cfg.database then .configError dbMissingMsg
      else .connect cfg

/-- Substring helper used only to state that a diagnostic names a flag:
`isPre pat s` holds when `pat` is an initial segment of `s`. -/
def isPre : List Char → List Char → Bool
  | [], _ => true
  | _ :: _, [] => false
  | a :: as, b :: bs => a == b && isPre as bs

/-- `hasSub pat s` holds when `pat` occurs contiguously in `s`. -/
def hasSub (pat : List Char) : List Char → Bool
  | [] => pat.isEmpty
  | c :: rest => isPre pat (c :: rest) || hasSub pat rest

/-- String-level substring occurrence. -/
def mentions (s pat : String) : Bool := hasSub pat.data s.data

/-! ## `db_utils.execute_with_retry` -/

/-- Observable trace of one `execute_with_retry` call: how many attempts
ran, which attempt numbers performed `conn.rollback()`, which
`(attempt, cause)` pairs were logged, and the final outcome (`none` only
for `max_retries = 0`, where the loop body never runs and the function
falls through returning `None`). -/
structure RetryTrace (ε ρ : Type) where
  attemptsMade : Nat
  rolledBack : List Nat
  logged : List (Nat × ε)
  outcome : Option (Except ε ρ)
deriving Repr

/-- Body of the `for attempt in range(1, max_retries + 1)` loop of
`db_utils.execute_with_retry` (lines 216–235): run the query; on success
return the fetched rows at once; on a psycopg2 `Error` roll back, then log
and continue unless this was the final attempt, in which case the original
error is re-raised.  `fuel` counts the attempts still available. -/
def retryAux (runQuery : Nat → Except ε ρ) : Nat → Nat → RetryTrace ε ρ
  | _, 0 => ⟨0, [], [], none⟩
  | attempt, fuel + 1 =>
      match runQuery attempt with
      | .ok r => ⟨1, [], [], some (.ok r)⟩
      | .error e =>
          if fuel = 0 then ⟨1, [attempt], [], some (.error e)⟩
          else
            let t := retryAux runQuery (attempt + 1) fuel
            ⟨t.attemptsMade + 1, attempt :: t.rolledBack,
             (attempt, e) :: t.logged, t.outcome⟩

/-- `db_utils.execute_with_retry`: attempts are numbered from 1; the
Python signature defaults `max_retries` to 3. -/
def execute_with_retry (runQuery : Nat → Except ε ρ) (max_retries : Nat) :
    RetryTrace ε ρ :=
  retryAux runQuery 1 max_retries

/-! ## Specification-side projections and relations

These definitions are not translations of source lines; they only give
names to the notions the claims quantify over (visible table contents,
keys, per-key payloads) so that the theorems below can state them. -/

/-- The SQL-visible, timestamp-independent part of a word row: every
column except `updated_at` (rewritten on each conflicting upsert) and the
storage-internal `xmin`. -/
def visRow (r : WordRow) : Nat × String × String × Nat × Nat × String × Nat :=
  (r.id, r.reading, r.word, r.pos_code, r.attr_id, r.collocation, r.created_at)

/-- Visible contents of the `words` table of a store. -/
def visWords (db : DB) : List (Nat × String × String × Nat × Nat × String × Nat) :=
  db.words.map visRow

/-- The `(reading, word, pos_code)` key of a stored row. -/
def keyOfRow (r : WordRow) : String × String × Nat :=
  (r.reading, r.word, r.pos_code)

/-- The `(reading, word, pos_code)` key of an upsert payload. -/
def keyOfOp (o : Op) : String × String × Nat :=
  (o.reading, o.word, o.pos_code)

/-- Row equivalence up to timestamps, with an optional exempted key `ex`
whose rows may additionally differ in the upsert-writable payload columns
(`collocation`, `attr_id`). -/
def rEq (ex : Option (String × String × Nat)) (a b : WordRow) : Prop :=
  a.id = b.id ∧ a.reading = b.reading ∧ a.word = b.word ∧
  a.pos_code = b.pos_code ∧ a.created_at = b.created_at ∧
  (ex ≠ some (keyOfRow a) → a.collocation = b.collocation ∧ a.attr_id = b.attr_id)

/-- Word-table equivalence: positionwise `rEq` plus equal serial counter. -/
def RelW (ex : Option (String × String × Nat)) (x y : WT) : Prop :=
  List.Forall₂ (rEq ex) x.1 y.1 ∧ x.2 = y.2

/-- All rows matching `o`'s key carry exactly `o`'s payload columns. -/
def PayloadIs (o : Op) (x : WT) : Prop :=
  ∀ r ∈ x.1, opMatches o r = true →
    r.collocation = o.collocation ∧ r.attr_id = o.attr_id

/-- The upsert payload a 5-field CSV row resolves to against a store:
`none` when the row is malformed or a reference lookup misses. -/
def opOf (db : DB) : List String → Option Op
  | [reading, word, pos_name, attr_name, collocation] =>
      match posLookup db pos_name, attrLookup db attr_name with
      | some pc, some ai => some ⟨reading, word, pc, ai, collocation⟩
      | _, _ => none
  | _ => none

/-- The upsert payloads of a CSV file against a store. -/
def opsOf (db : DB) (rows : List (List String)) : List Op :=
  rows.filterMap (opOf db)

/-- A CSV row that imports without skipping: exactly 5 fields and a
part-of-speech name present in `pos_codes`. -/
def RowShape (db : DB) (row : List String) : Prop :=
  ∃ a b c d e, row = [a, b, c, d, e] ∧ (posLookup db c).isSome

/-! ## Lemmas: word-table upsert algebra -/

theorem opMatches_iff {o : Op} {r : WordRow} :
    opMatches o r = true ↔ keyOfRow r = keyOfOp o := by
  simp [opMatches, keyMatches, keyOfRow, keyOfOp, Bool.and_eq_true,
    Prod.ext_iff, and_assoc]

theorem rEq_refl (ex : Option (String × String × Nat)) (a : WordRow) : rEq ex a a := by
  simp [rEq]

theorem RelW_refl (ex : Option (String × String × Nat)) (x : WT) : RelW ex x x :=
  ⟨List.forall₂_same.mpr fun r _ => rEq_refl ex r, rfl⟩

theorem rEq_key {ex : Option (String × String × Nat)} {a b : WordRow}
    (h : rEq ex a b) : keyOfRow a = keyOfRow b := by
  obtain ⟨-, h1, h2, h3, -, -⟩ := h
  simp [keyOfRow, h1, h2, h3]

theorem rEq_opMatches {ex : Option (String × String × Nat)} {a b : WordRow}
    (h : rEq ex a b) (o : Op) : opMatches o a = opMatches o b := by
  have hk := rEq_key h
  by_cases hm : opMatches o a = true
  · rw [hm, Eq.symm (opMatches_iff.mpr (hk ▸ opMatches_iff.mp hm))]
  · have hb' : ¬ opMatches o b = true := fun hb =>
      hm (opMatches_iff.mpr (hk ▸ opMatches_iff.mp hb))
    rw [Bool.not_eq_true] at hm hb'
    rw [hm, hb']

theorem forall₂_trans_rEq_none {x y z : List WordRow}
    (hxy : List.Forall₂ (rEq none) x y) (hyz : List.Forall₂ (rEq none) y z) :
    List.Forall₂ (rEq none) x z := by
  induction hxy generalizing z with
  | nil =>
      rw [List.forall₂_nil_left_iff] at hyz
      simp [hyz]
  | @cons a b l₁ l₂ hab _ ih =>
      cases z with
      | nil => exact absurd (List.forall₂_nil_right_iff.mp hyz) (by simp)
      | cons c z' =>
          rw [List.forall₂_cons] at hyz ⊢
          obtain ⟨hbc, hrest⟩ := hyz
          refine ⟨?_, ih hrest⟩
          obtain ⟨e1, e2, e3, e4, e5, e6⟩ := hab
          obtain ⟨f1, f2, f3, f4, f5, f6⟩ := hbc
          exact ⟨e1.trans f1, e2.trans f2, e3.trans f3, e4.trans f4, e5.trans f5,
            fun _ => ⟨(e6 (by simp)).1.trans (f6 (by simp)).1,
                      (e6 (by simp)).2.trans (f6 (by simp)).2⟩⟩

theorem RelW_trans {x y z : WT} (hxy : RelW none x y) (hyz : RelW none y z) :
    RelW none x z :=
  ⟨forall₂_trans_rEq_none hxy.1 hyz.1, hxy.2.trans hyz.2⟩

theorem forall₂_weaken {k : String × String × Nat} {x y : List WordRow}
    (hf : List.Forall₂ (rEq none) x y) : List.Forall₂ (rEq (some k)) x y := by
  induction hf with
  | nil => exact List.Forall₂.nil
  | cons hab _ ih =>
      refine List.Forall₂.cons ?_ ih
      obtain ⟨e1, e2, e3, e4, e5, e6⟩ := hab
      exact ⟨e1, e2, e3, e4, e5, fun _ => e6 (by simp)⟩

theorem RelW_weaken {x y : WT} (k : String × String × Nat)
    (h : RelW none x y) : RelW (some k) x y :=
  ⟨forall₂_weaken h.1, h.2⟩

theorem forall₂_any_congr {ex : Option (String × String × Nat)}
    {x y : List WordRow} (h : List.Forall₂ (rEq ex) x y) (o : Op) :
    x.any (opMatches o) = y.any (opMatches o) := by
  induction h with
  | nil => rfl
  | cons hab _ ih => simp [List.any_cons, rEq_opMatches hab o, ih]

theorem forall₂_append_single {R : WordRow → WordRow → Prop}
    {x y : List WordRow} (h : List.Forall₂ R x y) {a b : WordRow}
    (hab : R a b) : List.Forall₂ R (x ++ [a]) (y ++ [b]) := by
  induction h with
  | nil => simpa using List.Forall₂.cons hab List.Forall₂.nil
  | cons hcd _ ih => simpa using List.Forall₂.cons hcd ih

theorem forall₂_map_of_imp {R S : WordRow → WordRow → Prop}
    {x y : List WordRow} (h : List.Forall₂ R x y) {f g : WordRow → WordRow}
    (himp : ∀ a b, R a b → S (f a) (g b)) :
    List.Forall₂ S (x.map f) (y.map g) := by
  induction h with
  | nil => exact List.Forall₂.nil
  | cons hab _ ih => exact List.Forall₂.cons (himp _ _ hab) ih

theorem forall₂_strengthen_of_no_key {k : String × String × Nat}
    {x y : List WordRow} (hf : List.Forall₂ (rEq (some k)) x y)
    (hx : ∀ r ∈ x, keyOfRow r ≠ k) : List.Forall₂ (rEq none) x y := by
  induction hf with
  | nil => exact List.Forall₂.nil
  | @cons a b l₁ l₂ hab _ ih =>
      refine List.Forall₂.cons ?_ (ih fun r hr => hx r (List.mem_cons_of_mem _ hr))
      obtain ⟨e1, e2, e3, e4, e5, e6⟩ := hab
      refine ⟨e1, e2, e3, e4, e5, fun _ => e6 ?_⟩
      intro hk
      exact hx a (List.mem_cons_self _ _) (Option.some_inj.mp hk).symm

theorem rEq_step_none {a b : WordRow} (hab : rEq none a b) (t n : Nat) (o : Op) :
    rEq none (if opMatches o a then updRow t n o a else a)
             (if opMatches o b then updRow t n o b else b) := by
  rw [rEq_opMatches hab o]
  by_cases hm : opMatches o b = true
  · rw [hm]
    simp only [if_true]
    obtain ⟨e1, e2, e3, e4, e5, _⟩ := hab
    exact ⟨e1, e2, e3, e4, e5, fun _ => ⟨rfl, rfl⟩⟩
  · rw [Bool.not_eq_true] at hm
    rw [hm]
    simpa using hab

theorem rEq_step_keep {k : String × String × Nat} {a b : WordRow}
    (hab : rEq (some k) a b) (t n : Nat) (o : Op) :
    rEq (some k) (if opMatches o a then updRow t n o a else a)
                 (if opMatches o b then updRow t n o b else b) := by
  rw [rEq_opMatches hab o]
  by_cases hm : opMatches o b = true
  · rw [hm]
    simp only [if_true]
    obtain ⟨e1, e2, e3, e4, e5, _⟩ := hab
    exact ⟨e1, e2, e3, e4, e5, fun _ => ⟨rfl, rfl⟩⟩
  · rw [Bool.not_eq_true] at hm
    rw [hm]
    simpa using hab

theorem rEq_step_collapse {k : String × String × Nat} {a b : WordRow}
    (hab : rEq (some k) a b) (t n : Nat) {o : Op} (ho : keyOfOp o = k) :
    rEq none (if opMatches o a then updRow t n o a else a)
             (if opMatches o b then updRow t n o b else b) := by
  rw [rEq_opMatches hab o]
  by_cases hm : opMatches o b = true
  · rw [hm]
    simp only [if_true]
    obtain ⟨e1, e2, e3, e4, e5, _⟩ := hab
    exact ⟨e1, e2, e3, e4, e5, fun _ => ⟨rfl, rfl⟩⟩
  · rw [Bool.not_eq_true] at hm
    rw [hm]
    simp only [Bool.false_eq_true, if_false]
    have hmatch := rEq_opMatches hab o
    obtain ⟨e1, e2, e3, e4, e5, e6⟩ := hab
    refine ⟨e1, e2, e3, e4, e5, fun _ => e6 ?_⟩
    intro hk
    have hka : keyOfRow a = keyOfOp o := by
      rw [ho]
      exact (Option.some_inj.mp hk).symm
    have hma : opMatches o a = true := opMatches_iff.mpr hka
    rw [hmatch, hm] at hma
    exact absurd hma (by simp)

theorem applyOp_rel_none {x y : WT} (h : RelW none x y) (t n : Nat) (o : Op) :
    RelW none (applyOp t n x o) (applyOp t n y o) := by
  obtain ⟨x1, x2⟩ := x
  obtain ⟨y1, y2⟩ := y
  obtain ⟨hf, hn⟩ := h
  simp only at hf hn
  subst hn
  unfold applyOp
  dsimp only
  rw [forall₂_any_congr hf o]
  by_cases hany : y1.any (opMatches o) = true
  · rw [hany]
    simp only [if_true]
    exact ⟨forall₂_map_of_imp hf fun a b hab => rEq_step_none hab t n o, rfl⟩
  · rw [Bool.not_eq_true] at hany
    rw [hany]
    simp only [Bool.false_eq_true, if_false]
    exact ⟨forall₂_append_single hf (rEq_refl none _), rfl⟩

theorem applyOp_rel_keep {x y : WT} {k : String × String × Nat}
    (h : RelW (some k) x y) (t n : Nat) (o : Op) :
    RelW (some k) (applyOp t n x o) (applyOp t n y o) := by
  obtain ⟨x1, x2⟩ := x
  obtain ⟨y1, y2⟩ := y
  obtain ⟨hf, hn⟩ := h
  simp only at hf hn
  subst hn
  unfold applyOp
  dsimp only
  rw [forall₂_any_congr hf o]
  by_cases hany : y1.any (opMatches o) = true
  · rw [hany]
    simp only [if_true]
    exact ⟨forall₂_map_of_imp hf fun a b hab => rEq_step_keep hab t n o, rfl⟩
  · rw [Bool.not_eq_true] at hany
    rw [hany]
    simp only [Bool.false_eq_true, if_false]
    exact ⟨forall₂_append_single hf (rEq_refl (some k) _), rfl⟩

theorem applyOp_rel_collapse {x y : WT} {k : String × String × Nat}
    (h : RelW (some k) x y) (t n : Nat) {o : Op} (ho : keyOfOp o = k) :
    RelW none (applyOp t n x o) (applyOp t n y o) := by
  obtain ⟨x1, x2⟩ := x
  obtain ⟨y1, y2⟩ := y
  obtain ⟨hf, hn⟩ := h
  simp only at hf hn
  subst hn
  unfold applyOp
  dsimp only
  rw [forall₂_any_congr hf o]
  by_cases hany : y1.any (opMatches o) = true
  · rw [hany]
    simp only [if_true]
    exact ⟨forall₂_map_of_imp hf fun a b hab => rEq_step_collapse hab t n ho, rfl⟩
  · rw [Bool.not_eq_true] at hany
    rw [hany]
    simp only [Bool.false_eq_true, if_false]
    have hxany : x1.any (opMatches o) = false := by
      rw [forall₂_any_congr hf o, hany]
    have hx : ∀ r ∈ x1, keyOfRow r ≠ k := by
      intro r hr hk
      have : opMatches o r = true := opMatches_iff.mpr (by rw [hk, ho])
      have : x1.any (opMatches o) = true := List.any_eq_true.mpr ⟨r, hr, this⟩
      simp [this] at hxany
    exact ⟨forall₂_append_single (forall₂_strengthen_of_no_key hf hx)
      (rEq_refl none _), rfl⟩

theorem foldl_rel_none {ops : List Op} {x y : WT} (h : RelW none x y) (t n : Nat) :
    RelW none (List.foldl (applyOp t n) x ops) (List.foldl (applyOp t n) y ops) := by
  induction ops generalizing x y with
  | nil => exact h
  | cons o tl ih => exact ih (applyOp_rel_none h t n o)

theorem foldl_rel_dom {ops : List Op} {x y : WT} {k : String × String × Nat}
    (h : RelW (some k) x y) (t n : Nat) (hdom : ∃ o ∈ ops, keyOfOp o = k) :
    RelW none (List.foldl (applyOp t n) x ops) (List.foldl (applyOp t n) y ops) := by
  induction ops generalizing x y with
  | nil => exact absurd hdom (by simp)
  | cons o tl ih =>
      by_cases ho : keyOfOp o = k
      · exact foldl_rel_none (applyOp_rel_collapse h t n ho) t n
      · obtain ⟨o', ho', hk'⟩ := hdom
        rcases List.mem_cons.mp ho' with h1 | h1
        · exact absurd (h1 ▸ hk') ho
        · exact ih (applyOp_rel_keep h t n o) ⟨o', h1, hk'⟩

theorem applyOp_any_self (t n : Nat) (x : WT) (o : Op) :
    (applyOp t n x o).1.any (opMatches o) = true := by
  obtain ⟨x1, x2⟩ := x
  unfold applyOp
  dsimp only
  by_cases hany : x1.any (opMatches o) = true
  · rw [hany]
    simp only [if_true]
    obtain ⟨r, hr, hm⟩ := List.any_eq_true.mp hany
    refine List.any_eq_true.mpr ⟨if opMatches o r then updRow t n o r else r, List.mem_map.mpr ⟨r, hr, rfl⟩, ?_⟩
    rw [hm]
    simp only [if_true]
    simpa [updRow, opMatches, keyMatches] using hm
  · rw [Bool.not_eq_true] at hany
    rw [hany]
    simp only [Bool.false_eq_true, if_false]
    refine List.any_eq_true.mpr ⟨insRow t n x2 o, by simp, ?_⟩
    simp [insRow, opMatches, keyMatches]

theorem applyOp_any_mono {x : WT} {o' : Op} (h : x.1.any (opMatches o') = true)
    (t n : Nat) (o : Op) : (applyOp t n x o).1.any (opMatches o') = true := by
  obtain ⟨x1, x2⟩ := x
  unfold applyOp
  dsimp only at h ⊢
  by_cases hany : x1.any (opMatches o) = true
  · rw [hany]
    simp only [if_true]
    obtain ⟨r, hr, hm⟩ := List.any_eq_true.mp h
    refine List.any_eq_true.mpr ⟨if opMatches o r then updRow t n o r else r, List.mem_map.mpr ⟨r, hr, rfl⟩, ?_⟩
    by_cases hmo : opMatches o r = true
    · rw [hmo]
      simp only [if_true]
      simpa [updRow, opMatches, keyMatches] using hm
    · rw [Bool.not_eq_true] at hmo
      rw [hmo]
      simpa using hm
  · rw [Bool.not_eq_true] at hany
    rw [hany]
    simp only [Bool.false_eq_true, if_false]
    obtain ⟨r, hr, hm⟩ := List.any_eq_true.mp h
    exact List.any_eq_true.mpr ⟨r, List.mem_append.mpr (Or.inl hr), hm⟩

theorem foldl_any_mono {ops : List Op} {x : WT} {o' : Op}
    (h : x.1.any (opMatches o') = true) (t n : Nat) :
    (List.foldl (applyOp t n) x ops).1.any (opMatches o') = true := by
  induction ops generalizing x with
  | nil => exact h
  | cons o tl ih => exact ih (applyOp_any_mono h t n o)

theorem applyOp_payload_self (t n : Nat) (x : WT) (o : Op) :
    PayloadIs o (applyOp t n x o) := by
  obtain ⟨x1, x2⟩ := x
  unfold applyOp PayloadIs
  dsimp only
  by_cases hany : x1.any (opMatches o) = true
  · rw [hany]
    simp only [if_true]
    intro r hr hm
    obtain ⟨r0, hr0, heq⟩ := List.mem_map.mp hr
    by_cases hm0 : opMatches o r0 = true
    · rw [hm0] at heq
      simp only [if_true] at heq
      subst heq
      simp [updRow]
    · rw [Bool.not_eq_true] at hm0
      rw [hm0] at heq
      simp only [Bool.false_eq_true, if_false] at heq
      subst heq
      rw [hm0] at hm
      exact absurd hm (by simp)
  · rw [Bool.not_eq_true] at hany
    rw [hany]
    simp only [Bool.false_eq_true, if_false]
    intro r hr hm
    rcases List.mem_append.mp hr with h1 | h1
    · have : x1.any (opMatches o) = true := List.any_eq_true.mpr ⟨r, h1, hm⟩
      simp [this] at hany
    · have : r = insRow t n x2 o := by simpa using h1
      subst this
      simp [insRow]

theorem applyOp_payload_mono {x : WT} {o o' : Op}
    (hk : keyOfOp o' ≠ keyOfOp o) (h : PayloadIs o x) (t n : Nat) :
    PayloadIs o (applyOp t n x o') := by
  obtain ⟨x1, x2⟩ := x
  unfold applyOp PayloadIs
  dsimp only
  unfold PayloadIs at h
  dsimp only at h
  by_cases hany : x1.any (opMatches o') = true
  · rw [hany]
    simp only [if_true]
    intro r hr hm
    obtain ⟨r0, hr0, heq⟩ := List.mem_map.mp hr
    by_cases hm0 : opMatches o' r0 = true
    · rw [hm0] at heq
      simp only [if_true] at heq
      subst heq
      have : keyOfRow r0 = keyOfOp o' := opMatches_iff.mp hm0
      have hmr : opMatches o (updRow t n o' r0) = true := hm
      have : keyOfRow (updRow t n o' r0) = keyOfOp o := opMatches_iff.mp hmr
      rw [show keyOfRow (updRow t n o' r0) = keyOfRow r0 from rfl] at this
      exact absurd (by cc : keyOfOp o' = keyOfOp o) hk
    · rw [Bool.not_eq_true] at hm0
      rw [hm0] at heq
      simp only [Bool.false_eq_true, if_false] at heq
      subst heq
      exact h r0 hr0 hm
  · rw [Bool.not_eq_true] at hany
    rw [hany]
    simp only [Bool.false_eq_true, if_false]
    intro r hr hm
    rcases List.mem_append.mp hr with h1 | h1
    · exact h r h1 hm
    · have : r = insRow t n x2 o' := by simpa using h1
      subst this
      have : keyOfRow (insRow t n x2 o') = keyOfOp o := opMatches_iff.mp hm
      have h2 : keyOfRow (insRow t n x2 o') = keyOfOp o' := by
        simp [insRow, keyOfRow, keyOfOp]
      exact absurd (by cc : keyOfOp o' = keyOfOp o) hk

theorem foldl_payload_mono {ops : List Op} {x : WT} {o : Op}
    (hops : ∀ o' ∈ ops, keyOfOp o' ≠ keyOfOp o) (h : PayloadIs o x) (t n : Nat) :
    PayloadIs o (List.foldl (applyOp t n) x ops) := by
  induction ops generalizing x with
  | nil => exact h
  | cons o' tl ih =>
      exact ih (fun a ha => hops a (List.mem_cons_of_mem _ ha))
        (applyOp_payload_mono (hops o' (List.mem_cons_self _ _)) h t n)

theorem applyOp_rel_self {x : WT} {o : Op} (hany : x.1.any (opMatches o) = true)
    (hpay : PayloadIs o x) (t n : Nat) : RelW none (applyOp t n x o) x := by
  obtain ⟨x1, x2⟩ := x
  unfold applyOp
  dsimp only at hany ⊢
  rw [hany]
  simp only [if_true]
  refine ⟨?_, rfl⟩
  unfold PayloadIs at hpay
  dsimp only at hpay
  have : ∀ r ∈ x1, rEq none (if opMatches o r then updRow t n o r else r) r := by
    intro r hr
    by_cases hm : opMatches o r = true
    · rw [hm]
      simp only [if_true]
      obtain ⟨hc, ha⟩ := hpay r hr hm
      exact ⟨rfl, rfl, rfl, rfl, rfl, fun _ => ⟨hc.symm, ha.symm⟩⟩
    · rw [Bool.not_eq_true] at hm
      rw [hm]
      simp only [Bool.false_eq_true, if_false]
      exact rEq_refl none r
  clear hany hpay
  induction x1 with
  | nil => exact List.Forall₂.nil
  | cons r tl ih =>
      rw [List.map_cons, List.forall₂_cons]
      exact ⟨this r (List.mem_cons_self _ _),
        ih fun a ha => this a (List.mem_cons_of_mem _ ha)⟩

theorem applyOp_rel_some_self {x : WT} {o : Op}
    (hany : x.1.any (opMatches o) = true) (t n : Nat) :
    RelW (some (keyOfOp o)) (applyOp t n x o) x := by
  obtain ⟨x1, x2⟩ := x
  unfold applyOp
  dsimp only at hany ⊢
  rw [hany]
  simp only [if_true]
  refine ⟨?_, rfl⟩
  have : ∀ r ∈ x1, rEq (some (keyOfOp o)) (if opMatches o r then updRow t n o r else r) r := by
    intro r hr
    by_cases hm : opMatches o r = true
    · rw [hm]
      simp only [if_true]
      refine ⟨rfl, rfl, rfl, rfl, rfl, fun hne => absurd ?_ hne⟩
      rw [show keyOfRow (updRow t n o r) = keyOfRow r from rfl, opMatches_iff.mp hm]
    · rw [Bool.not_eq_true] at hm
      rw [hm]
      simp only [Bool.false_eq_true, if_false]
      exact rEq_refl _ r
  clear hany
  induction x1 with
  | nil => exact List.Forall₂.nil
  | cons r tl ih =>
      rw [List.map_cons, List.forall₂_cons]
      exact ⟨this r (List.mem_cons_self _ _),
        ih fun a ha => this a (List.mem_cons_of_mem _ ha)⟩

theorem foldl_idem_aux (t1 n1 t2 n2 : Nat) :
    ∀ (ops pre : List Op) (w : WT),
      RelW none
        (List.foldl (applyOp t2 n2)
          (List.foldl (applyOp t1 n1) w (pre ++ ops)) ops)
        (List.foldl (applyOp t1 n1) w (pre ++ ops)) := by
  intro ops
  induction ops with
  | nil => intro pre w; exact RelW_refl none _
  | cons o tl ih =>
      intro pre w
      have hsplit : pre ++ o :: tl = (pre ++ [o]) ++ tl := by simp
      set u := List.foldl (applyOp t1 n1) w (pre ++ o :: tl) with hu
      have hu2 : u = List.foldl (applyOp t1 n1)
          (applyOp t1 n1 (List.foldl (applyOp t1 n1) w pre) o) tl := by
        rw [hu, hsplit, List.foldl_append, List.foldl_append]
        simp
      have hih : RelW none (List.foldl (applyOp t2 n2) u tl) u := by
        have := ih (pre ++ [o]) w
        rwa [← hsplit] at this
      have hanyu : u.1.any (opMatches o) = true := by
        rw [hu2]
        exact foldl_any_mono (applyOp_any_self t1 n1 _ o) t1 n1
      rw [List.foldl_cons]
      by_cases hdom : ∃ o' ∈ tl, keyOfOp o' = keyOfOp o
      · have h1 : RelW (some (keyOfOp o)) (applyOp t2 n2 u o) u :=
          applyOp_rel_some_self hanyu t2 n2
        have h2 : RelW none (List.foldl (applyOp t2 n2) (applyOp t2 n2 u o) tl)
            (List.foldl (applyOp t2 n2) u tl) := foldl_rel_dom h1 t2 n2 hdom
        exact RelW_trans h2 hih
      · have hops : ∀ o' ∈ tl, keyOfOp o' ≠ keyOfOp o := by
          intro o' ho' hk
          exact hdom ⟨o', ho', hk⟩
        have hpay : PayloadIs o u := by
          rw [hu2]
          exact foldl_payload_mono hops (applyOp_payload_self t1 n1 _ o) t1 n1
        have h1 : RelW none (applyOp t2 n2 u o) u := applyOp_rel_self hanyu hpay t2 n2
        have h2 : RelW none (List.foldl (applyOp t2 n2) (applyOp t2 n2 u o) tl)
            (List.foldl (applyOp t2 n2) u tl) := foldl_rel_none h1 t2 n2
        exact RelW_trans h2 hih

theorem foldl_idem (t1 n1 t2 n2 : Nat) (ops : List Op) (w : WT) :
    RelW none
      (List.foldl (applyOp t2 n2) (List.foldl (applyOp t1 n1) w ops) ops)
      (List.foldl (applyOp t1 n1) w ops) := by
  have := foldl_idem_aux t1 n1 t2 n2 ops [] w
  simpa using this

theorem forall₂_map_visRow {x y : List WordRow}
    (hf : List.Forall₂ (rEq none) x y) : x.map visRow = y.map visRow := by
  induction hf with
  | nil => rfl
  | cons hab _ ih =>
      rw [List.map_cons, List.map_cons, ih]
      obtain ⟨e1, e2, e3, e4, e5, e6⟩ := hab
      obtain ⟨ec, ea⟩ := e6 (by simp)
      simp [visRow, e1, e2, e3, e4, e5, ec, ea]

theorem RelW_visRow {x y : WT} (h : RelW none x y) :
    x.1.map visRow = y.1.map visRow :=
  forall₂_map_visRow h.1

/-! ## Lemmas: reference resolution and the import loop -/

theorem find?_append_some {α : Type} {p : α → Bool} {l l' : List α} {x : α}
    (h : List.find? p l = some x) : List.find? p (l ++ l') = some x := by
  rw [List.find?_append, h]
  rfl

theorem lookup_append_some {tbl more : List (Nat × String)} {name : String}
    {j : Nat} (h : (tbl.find? fun p => p.2 == name).map (·.1) = some j) :
    (((tbl ++ more).find? fun p => p.2 == name).map (·.1)) = some j := by
  cases hf : List.find? (fun p => p.2 == name) tbl with
  | none => rw [hf] at h; simp at h
  | some x =>
      rw [hf] at h
      rw [find?_append_some hf]
      exact h

theorem get_or_create_attr_id_spec (s : Session) (d : String) :
    (get_or_create_attr_id s d).2.current.pos_codes = s.current.pos_codes ∧
    attrLookup (get_or_create_attr_id s d).2.current d =
      some (get_or_create_attr_id s d).1 ∧
    (∀ b j, attrLookup s.current b = some j →
      attrLookup (get_or_create_attr_id s d).2.current b = some j) ∧
    (get_or_create_attr_id s d).2.current.words = s.current.words ∧
    (get_or_create_attr_id s d).2.current.word_next = s.current.word_next := by
  unfold get_or_create_attr_id
  cases hl : attrLookup s.current d with
  | some i => exact ⟨rfl, hl, fun b j hj => hj, rfl, rfl⟩
  | none =>
      refine ⟨rfl, ?_, ?_, rfl, rfl⟩
      · show (((s.current.attr_codes ++ [(s.current.attr_next, d)]).find?
            fun p => p.2 == d).map (·.1)) = some s.current.attr_next
        have hf : List.find? (fun p => p.2 == d) s.current.attr_codes = none := by
          cases hf : List.find? (fun p => p.2 == d) s.current.attr_codes with
          | none => rfl
          | some x =>
              have hl2 : ((s.current.attr_codes.find? fun p => p.2 == d).map (·.1)) = none := hl
              rw [hf] at hl2
              simp at hl2
        rw [List.find?_append, hf]
        simp [List.find?]
      · intro b j hj
        have hj2 : ((s.current.attr_codes.find? fun p => p.2 == b).map (·.1)) = some j := hj
        exact lookup_append_some hj2

theorem applyOp_xmin_of_match (t n : Nat) (w : WT) (o : Op) :
    ∀ r ∈ (applyOp t n w o).1, opMatches o r = true → r.xmin = t := by
  obtain ⟨x1, x2⟩ := w
  unfold applyOp
  dsimp only
  by_cases hany : x1.any (opMatches o) = true
  · rw [hany]
    simp only [if_true]
    intro r hr hm
    obtain ⟨r0, hr0, heq⟩ := List.mem_map.mp hr
    by_cases hm0 : opMatches o r0 = true
    · rw [hm0] at heq
      simp only [if_true] at heq
      subst heq
      rfl
    · rw [Bool.not_eq_true] at hm0
      rw [hm0] at heq
      simp only [Bool.false_eq_true, if_false] at heq
      subst heq
      rw [hm0] at hm
      exact absurd hm (by simp)
  · rw [Bool.not_eq_true] at hany
    rw [hany]
    simp only [Bool.false_eq_true, if_false]
    intro r hr hm
    rcases List.mem_append.mp hr with h1 | h1
    · have : x1.any (opMatches o) = true := List.any_eq_true.mpr ⟨r, h1, hm⟩
      simp [this] at hany
    · have : r = insRow t n x2 o := by simpa using h1
      subst this
      rfl

theorem applyOp_find_xmin (t n : Nat) (w : WT) (o : Op) :
    ∃ wr, (applyOp t n w o).1.find? (opMatches o) = some wr ∧ wr.xmin = t := by
  have hany : (applyOp t n w o).1.any (opMatches o) = true := applyOp_any_self t n w o
  have hsome : (List.find? (opMatches o) (applyOp t n w o).1).isSome = true := by
    rw [List.find?_isSome]
    exact List.any_eq_true.mp hany
  obtain ⟨wr, hwr⟩ := Option.isSome_iff_exists.mp hsome
  refine ⟨wr, hwr, ?_⟩
  exact applyOp_xmin_of_match t n w o wr (List.mem_of_find?_eq_some hwr)
    (List.find?_some hwr)

theorem processRow_short {s : Session} {txid now : Nat} {f : Bool}
    {row : List String} (h : row.length < 5) :
    processRow s txid now f row = some (s, .skip) := by
  unfold processRow
  rw [if_pos h]

theorem processRow_unknown_pos {s : Session} {txid now : Nat} {f : Bool}
    {a b c d e : String} (h : posLookup s.current c = none) :
    processRow s txid now f [a, b, c, d, e] = some (s, .skip) := by
  unfold processRow
  simp [get_or_create_pos_code, h]

theorem processRow_dbfail {s : Session} {txid now : Nat}
    {a b c d e : String} {pc : Nat} (h : posLookup s.current c = some pc) :
    processRow s txid now true [a, b, c, d, e] =
      some (Session.rollback (get_or_create_attr_id s d).2, .err) := by
  unfold processRow
  simp [get_or_create_pos_code, h]

theorem processRow_success {s : Session} {txid : Nat} (now : Nat) (htx : txid ≠ 0)
    {a b c d e : String} {pc : Nat} (hpos : posLookup s.current c = some pc) :
    processRow s txid now false [a, b, c, d, e] =
      some ({ (get_or_create_attr_id s d).2 with
                current := (get_or_create_attr_id s d).2.current.setWords
                  (applyOp txid now (get_or_create_attr_id s d).2.current.wordsState
                    ⟨a, b, pc, (get_or_create_attr_id s d).1, e⟩) }, .upd) := by
  unfold processRow
  simp only [get_or_create_pos_code, hpos]
  obtain ⟨wr, hwr, hx⟩ := applyOp_find_xmin txid now
    (get_or_create_attr_id s d).2.current.wordsState
    (⟨a, b, pc, (get_or_create_attr_id s d).1, e⟩ : Op)
  have hfind : List.find? (keyMatches a b pc)
      ({ (get_or_create_attr_id s d).2 with
          current := (get_or_create_attr_id s d).2.current.setWords
            (applyOp txid now (get_or_create_attr_id s d).2.current.wordsState
              ⟨a, b, pc, (get_or_create_attr_id s d).1, e⟩) }).current.words = some wr := by
    exact hwr
  simp only [List.length_cons, List.length_nil] at *
  rw [if_neg (by omega)]
  simp only [hfind]
  have : (wr.xmin == 0) = false := by
    rw [hx]
    simpa using htx
  rw [this]
  simp

theorem posLookup_congr {db db' : DB} (h : db.pos_codes = db'.pos_codes) :
    ∀ name, posLookup db name = posLookup db' name := by
  intro name
  unfold posLookup
  rw [h]

theorem attrLookup_congr {db db' : DB} (h : db.attr_codes = db'.attr_codes) :
    ∀ name, attrLookup db name = attrLookup db' name := by
  intro name
  unfold attrLookup
  rw [h]

theorem setWords_wordsState (db : DB) (w : WT) :
    (db.setWords w).wordsState = w := rfl

theorem import_run_spec {txid : Nat} (now : Nat) (htx : txid ≠ 0) :
    ∀ (rows : List (List String)) (s : Session) (rowNum : Nat) (c : Counts),
      (∀ r ∈ rows, RowShape s.current r) →
      ∃ s1, importAux txid now noFail s rowNum c rows
              = some (s1, { c with updated := c.updated + rows.length }) ∧
        s1.committed = s1.current ∧
        s1.current.pos_codes = s.current.pos_codes ∧
        (∀ b j, attrLookup s.current b = some j →
          attrLookup s1.current b = some j) ∧
        (∀ r ∈ rows, (opOf s1.current r).isSome) ∧
        s1.current.wordsState =
          List.foldl (applyOp txid now) s.current.wordsState
            (opsOf s1.current rows) := by
  intro rows
  induction rows with
  | nil =>
      intro s rowNum c _
      refine ⟨Session.commit s, ?_, rfl, rfl, fun b j hj => hj, by simp, rfl⟩
      simp only [importAux, List.length_nil]
      have : { c with updated := c.updated + 0 } = c := by cases c; simp
      rw [this]
  | cons row rest ih =>
      intro s rowNum c hrows
      obtain ⟨a, b, cc, d, e, hrow, hposs⟩ := hrows row (List.mem_cons_self _ _)
      subst hrow
      obtain ⟨pc, hpc⟩ := Option.isSome_iff_exists.mp hposs
      have hspec := get_or_create_attr_id_spec s d
      obtain ⟨hp1, hp2, hp3, hp4, hp5⟩ := hspec
      set ai := (get_or_create_attr_id s d).1 with hai
      set sp := (get_or_create_attr_id s d).2 with hsp
      set s2 : Session := { sp with
          current := sp.current.setWords
            (applyOp txid now sp.current.wordsState ⟨a, b, pc, ai, e⟩) } with hs2
      have hs2pos : s2.current.pos_codes = s.current.pos_codes := hp1
      have hs2attr : ∀ name, attrLookup s2.current name = attrLookup sp.current name :=
        fun _ => rfl
      have hrest : ∀ r ∈ rest, RowShape s2.current r := by
        intro r hr
        obtain ⟨a1, b1, c1, d1, e1, hr1, hps1⟩ :=
          hrows r (List.mem_cons_of_mem _ hr)
        exact ⟨a1, b1, c1, d1, e1, hr1, by
          rw [posLookup_congr hs2pos]
          exact hps1⟩
      obtain ⟨s1, heq, hcm, hpos1, hmono1, hhits1, hfold1⟩ :=
        ih s2 (rowNum + 1) (c.bump .upd) hrest
      have hposA : ∀ name, posLookup s1.current name = posLookup s.current name :=
        posLookup_congr (hpos1.trans hs2pos)
      have hmonoA : ∀ bn j, attrLookup s.current bn = some j →
          attrLookup s1.current bn = some j := by
        intro bn j hj
        exact hmono1 bn j (hp3 bn j hj)
      have hattr_row : attrLookup s1.current d = some ai :=
        hmono1 d ai hp2
      have hop_row : opOf s1.current [a, b, cc, d, e] = some ⟨a, b, pc, ai, e⟩ := by
        simp only [opOf]
        rw [hposA cc, hpc, hattr_row]
      refine ⟨s1, ?_, hcm, hpos1.trans hs2pos, hmonoA, ?_, ?_⟩
      · simp only [importAux]
        have hnf : noFail rowNum = false := rfl
        rw [hnf, processRow_success now htx hpc]
        rw [← hai, ← hsp, ← hs2]
        dsimp only
        rw [heq]
        have hcnt : { c.bump RowOutcome.upd with
            updated := (c.bump RowOutcome.upd).updated + rest.length } =
            { c with updated := c.updated + ([a, b, cc, d, e] :: rest).length } := by
          cases c
          simp [Counts.bump]
          omega
        rw [hcnt]
      · intro r hr
        rcases List.mem_cons.mp hr with h1 | h1
        · rw [h1, hop_row]
          rfl
        · exact hhits1 r h1
      · have hops : opsOf s1.current ([a, b, cc, d, e] :: rest) =
            (⟨a, b, pc, ai, e⟩ : Op) :: opsOf s1.current rest := by
          unfold opsOf
          rw [List.filterMap_cons, hop_row]
        rw [hops, List.foldl_cons]
        have hws : applyOp txid now s.current.wordsState ⟨a, b, pc, ai, e⟩ =
            s2.current.wordsState := by
          rw [hs2]
          show applyOp txid now s.current.wordsState _ =
            (sp.current.setWords (applyOp txid now sp.current.wordsState _)).wordsState
          rw [setWords_wordsState]
          have : sp.current.wordsState = s.current.wordsState := by
            unfold DB.wordsState
            rw [hp4, hp5]
          rw [this]
        rw [hws]
        exact hfold1

/-- C1 — Idempotent upsert: for every CSV file whose rows all import
successfully (5 fields each, known part of speech, no database error),
running `import_csv` twice in succession leaves the `words` table with the
same contents as running it once, up to the columns the conflicting upsert
rewrites on the second run (`updated_at`, and the storage-internal `xmin`;
`collocation` and `attr_id` are rewritten to identical values), and the
second run reports every row as updated, none as inserted, zero skipped
and zero errors. -/
theorem c1_idempotent_upsert (s : Session) (rows : List (List String))
    (t1 n1 t2 n2 : Nat) (ht1 : t1 ≠ 0) (ht2 : t2 ≠ 0)
    (hrows : ∀ r ∈ rows, RowShape s.current r) :
    ∃ s1 c1 s2 c2,
      import_csv s t1 n1 noFail rows = some (s1, c1) ∧
      import_csv s1 t2 n2 noFail rows = some (s2, c2) ∧
      visWords s2.current = visWords s1.current ∧
      s2.committed = s2.current ∧
      c2 = ⟨0, rows.length, 0, 0⟩ := by
  obtain ⟨s1, heq1, hcm1, hpos1, hmono1, hhits1, hfold1⟩ :=
    import_run_spec n1 ht1 rows s 1 ⟨0, 0, 0, 0⟩ hrows
  have hrows1 : ∀ r ∈ rows, RowShape s1.current r := by
    intro r hr
    obtain ⟨a, b, cch, d, e, hre, hps⟩ := hrows r hr
    exact ⟨a, b, cch, d, e, hre, by rw [posLookup_congr hpos1]; exact hps⟩
  obtain ⟨s2, heq2, hcm2, hpos2, hmono2, hhits2, hfold2⟩ :=
    import_run_spec n2 ht2 rows s1 1 ⟨0, 0, 0, 0⟩ hrows1
  have hops_eq : opsOf s2.current rows = opsOf s1.current rows := by
    unfold opsOf
    apply List.filterMap_congr
    intro r hr
    obtain ⟨a, b, cch, d, e, hre, _⟩ := hrows r hr
    have h1 := hhits1 r hr
    subst hre
    cases hp : posLookup s1.current cch with
    | none => simp [opOf, hp] at h1
    | some pcx =>
        cases ha : attrLookup s1.current d with
        | none => simp [opOf, hp, ha] at h1
        | some aix =>
            have hp2 : posLookup s2.current cch = some pcx := by
              rw [posLookup_congr hpos2, hp]
            have ha2 : attrLookup s2.current d = some aix := hmono2 d aix ha
            simp [opOf, hp, ha, hp2, ha2]
  refine ⟨s1, _, s2, _, heq1, heq2, ?_, hcm2, by simp⟩
  have hchain : s2.current.wordsState =
      List.foldl (applyOp t2 n2)
        (List.foldl (applyOp t1 n1) s.current.wordsState (opsOf s1.current rows))
        (opsOf s1.current rows) := by
    rw [hfold2, hops_eq, hfold1]
  have hrel := foldl_idem t1 n1 t2 n2 (opsOf s1.current rows) s.current.wordsState
  have hvis := RelW_visRow hrel
  show s2.current.words.map visRow = s1.current.words.map visRow
  calc s2.current.words.map visRow
      = s2.current.wordsState.1.map visRow := rfl
    _ = s1.current.wordsState.1.map visRow := by rw [hchain, hvis, ← hfold1]
    _ = s1.current.words.map visRow := rfl

/-- C2 — Insert/update classification, evaluated at the spec's own example:
importing the single CSV row `("たなか","田中","固有名詞","地名","−")` into
the empty, freshly initialized schema (no pre-existing word row, so the
claim requires `inserted = 1, updated = 0`).  The importer classifies via
`SELECT xmin = 0`, and a live tuple's `xmin` is the (nonzero) id of the
writing transaction, so the test is never true: the run reports
`inserted = 0, updated = 1` — the code contradicts the claim and the
spec's example.  The second conjunct shows that, in general, a successful
row processed in any nonzero transaction is always classified `upd`,
never `ins`, regardless of whether the row existed before the write. -/
theorem c2_insert_misclassified :
    ((import_csv freshSession 3 0 noFail
        [["たなか", "田中", "固有名詞", "地名", "−"]]).map (·.2)
      = some ⟨0, 1, 0, 0⟩ ∧ freshSession.current.words = []) ∧
    (∀ (s : Session) (txid now : Nat) (a b c d e : String) (pc : Nat)
        (s9 : Session) (o : RowOutcome), txid ≠ 0 →
      posLookup s.current c = some pc →
      processRow s txid now false [a, b, c, d, e] = some (s9, o) →
      o ≠ RowOutcome.ins) := by
  refine ⟨⟨rfl, rfl⟩, ?_⟩
  intro s txid now a b c d e pc s9 o htx hpos hrun
  rw [processRow_success now htx hpos] at hrun
  obtain ⟨-, ho⟩ := Prod.mk.injEq .. ▸ (Option.some_inj.mp hrun)
  rw [← ho]
  simp

/-- C3 counterexample — two rows sharing an already-committed attribute:
row 1 succeeds (its upsert is counted, `updated = 1`), row 2 raises a
database error at its word-table statement, and the `conn.rollback()`
discards the whole open transaction — including row 1's uncommitted
upsert.  After the final commit the committed `words` table is empty, so
the effects of the earlier successful row did NOT remain committed, as
the claim asserts.  (Attribute creation for `"x"` committed mid-run at
row 1, which is why only the word upsert is lost.) -/
theorem c3_earlier_rows_lost :
    (import_csv freshSession 3 0 (fun n => n == 2)
        [["あ", "亜", "固有名詞", "x", "c1"],
         ["い", "以", "固有名詞", "x", "c2"]]).map
      (fun p => (p.1.committed.words, p.2))
      = some ([], ⟨0, 1, 0, 1⟩) := by
  rfl

/-- C3 amended — per-row error handling: when a row's word-table statement
raises a database error (other than the handled unknown-part-of-speech
case), the importer counts the row as an error, rolls back the open
transaction — which discards that row's partial effects together with any
effects of earlier rows not yet committed (only state committed earlier,
e.g. at an attribute creation, survives, as the current view reverts
exactly to the committed store) — and continues with the next row; the bad
row itself never aborts the import and raises nothing to the caller. -/
theorem c3_error_rollback_continue (s : Session) (txid now : Nat)
    (a b c d e : String) (pc : Nat) (rest : List (List String)) (rowNum : Nat)
    (dbFail : Nat → Bool) (cnt : Counts)
    (hpos : posLookup s.current c = some pc) (hf : dbFail rowNum = true) :
    importAux txid now dbFail s rowNum cnt ([a, b, c, d, e] :: rest) =
      importAux txid now dbFail
        (Session.rollback (get_or_create_attr_id s d).2) (rowNum + 1)
        { cnt with errors := cnt.errors + 1 } rest ∧
    (Session.rollback (get_or_create_attr_id s d).2).current =
      (get_or_create_attr_id s d).2.committed := by
  constructor
  · simp only [importAux]
    rw [hf, processRow_dbfail hpos]
    rfl
  · rfl

/-- C6 — Skip semantics: a CSV row with fewer than 5 fields, and a 5-field
row whose part-of-speech name is absent from `pos_codes`, are each counted
as skipped; the session is left completely unchanged (no word row is
written and nothing is ever inserted into `pos_codes`), no exception
reaches the caller, and the loop continues with the next row at the next
row number.  (The stderr diagnostic printed for such rows is I/O outside
this model.) -/
theorem c6_skip_semantics (s : Session) (txid now : Nat) (dbFail : Nat → Bool)
    (rowNum : Nat) (cnt : Counts) (rest : List (List String)) :
    (∀ row : List String, row.length < 5 →
      importAux txid now dbFail s rowNum cnt (row :: rest) =
        importAux txid now dbFail s (rowNum + 1)
          { cnt with skipped := cnt.skipped + 1 } rest) ∧
    (∀ a b c d e : String, posLookup s.current c = none →
      importAux txid now dbFail s rowNum cnt ([a, b, c, d, e] :: rest) =
        importAux txid now dbFail s (rowNum + 1)
          { cnt with skipped := cnt.skipped + 1 } rest) := by
  constructor
  · intro row h5
    simp only [importAux]
    rw [processRow_short h5]
    rfl
  · intro a b c d e hpos
    simp only [importAux]
    rw [processRow_unknown_pos hpos]
    rfl

/-- C7 — Attribute resolve-or-create: when the name is present the
resolver returns the existing id with the session untouched (even when the
insert would have failed — it is never attempted); when absent it inserts
the name under the next serial id, commits, and returns that id; when the
insert raises, it rolls back and re-reads, returning the id found in the
now-visible committed store instead of propagating, and propagates the
original error only when the re-read also finds nothing; and resolving the
same name again after a creation returns the same id and changes nothing,
so repeated rows with one `attr_name` cause at most one new attribute
row. -/
theorem c7_attr_resolve_or_create (s : Session) (name : String) (store : DB) :
    (get_or_create_attr_id_raceable s name false store =
      .ok (get_or_create_attr_id s name)) ∧
    (∀ i, attrLookup s.current name = some i →
      get_or_create_attr_id s name = (i, s) ∧
      get_or_create_attr_id_raceable s name true store = .ok (i, s)) ∧
    (attrLookup s.current name = none →
      get_or_create_attr_id s name = (s.current.attr_next,
        Session.commit ⟨s.committed,
          { s.current with
              attr_codes := s.current.attr_codes ++ [(s.current.attr_next, name)],
              attr_next := s.current.attr_next + 1 }⟩)) ∧
    (∀ j, attrLookup s.current name = none → attrLookup store name = some j →
      get_or_create_attr_id_raceable s name true store =
        .ok (j, ⟨store, store⟩)) ∧
    (attrLookup s.current name = none → attrLookup store name = none →
      get_or_create_attr_id_raceable s name true store = .error ()) ∧
    (get_or_create_attr_id ((get_or_create_attr_id s name).2) name =
      ((get_or_create_attr_id s name).1, (get_or_create_attr_id s name).2)) := by
  refine ⟨?_, ?_, ?_, ?_, ?_, ?_⟩
  · unfold get_or_create_attr_id_raceable get_or_create_attr_id
    cases hl : attrLookup s.current name <;> simp
  · intro i hl
    unfold get_or_create_attr_id_raceable get_or_create_attr_id
    rw [hl]
    exact ⟨rfl, rfl⟩
  · intro hl
    unfold get_or_create_attr_id
    rw [hl]
  · intro j hl hst
    unfold get_or_create_attr_id_raceable
    rw [hl, hst]
    rfl
  · intro hl hst
    unfold get_or_create_attr_id_raceable
    rw [hl, hst]
    rfl
  · obtain ⟨-, hp2, -, -, -⟩ := get_or_create_attr_id_spec s name
    conv_lhs => rw [get_or_create_attr_id]
    rw [hp2]

/-! ## Lemmas: export ordering, dedup and the wrapper -/

theorem char_toNat_inj {a b : Char} (h : a.toNat = b.toNat) : a = b :=
  Char.ext (UInt32.eq_of_val_eq (Fin.eq_of_val_eq h))

theorem lexLt_trans : ∀ {x y z : List Char},
    lexLt x y = true → lexLt y z = true → lexLt x z = true := by
  intro x
  induction x with
  | nil =>
      intro y z hxy hyz
      cases y with
      | nil => simp [lexLt] at hxy
      | cons b bs =>
          cases z with
          | nil => simp [lexLt] at hyz
          | cons c cs => simp [lexLt]
  | cons a as ih =>
      intro y z hxy hyz
      cases y with
      | nil => simp [lexLt] at hxy
      | cons b bs =>
          cases z with
          | nil => simp [lexLt] at hyz
          | cons c cs =>
              simp only [lexLt] at hxy hyz ⊢
              split_ifs at hxy hyz ⊢ <;> first
                | rfl
                | omega
                | (exact ih hxy hyz)

theorem lexLt_total : ∀ x y : List Char,
    lexLt x y = true ∨ x = y ∨ lexLt y x = true := by
  intro x
  induction x with
  | nil =>
      intro y
      cases y with
      | nil => simp [lexLt]
      | cons b bs => simp [lexLt]
  | cons a as ih =>
      intro y
      cases y with
      | nil => simp [lexLt]
      | cons b bs =>
          rcases Nat.lt_trichotomy a.toNat b.toNat with h | h | h
          · left
            simp [lexLt, h]
          · rcases ih bs with h2 | h2 | h2
            · left
              simp [lexLt, h, h2]
            · right; left
              rw [char_toNat_inj h, h2]
            · right; right
              simp [lexLt, h.symm, h2]
          · right; right
            simp [lexLt, h]

theorem strLt_trans {x y z : String} (h1 : strLt x y = true)
    (h2 : strLt y z = true) : strLt x z = true :=
  lexLt_trans h1 h2

theorem strLt_total (x y : String) :
    strLt x y = true ∨ x = y ∨ strLt y x = true := by
  rcases lexLt_total x.data y.data with h | h | h
  · exact Or.inl h
  · exact Or.inr (Or.inl (String.ext h))
  · exact Or.inr (Or.inr h)

theorem joinedLe_trans : ∀ a b c : JoinedRow,
    joinedLe a b = true → joinedLe b c = true → joinedLe a c = true := by
  intro a b c hab hbc
  simp only [joinedLe, Bool.or_eq_true, Bool.and_eq_true, beq_iff_eq] at hab hbc ⊢
  rcases hab with h1 | ⟨h1, h1w⟩ <;> rcases hbc with h2 | ⟨h2, h2w⟩
  · exact Or.inl (strLt_trans h1 h2)
  · exact Or.inl (h2 ▸ h1)
  · exact Or.inl (h1 ▸ h2)
  · refine Or.inr ⟨h1.trans h2, ?_⟩
    rcases h1w with hw1 | hw1 <;> rcases h2w with hw2 | hw2
    · exact Or.inl (strLt_trans hw1 hw2)
    · exact Or.inl (hw2 ▸ hw1)
    · exact Or.inl (hw1 ▸ hw2)
    · exact Or.inr (hw1.trans hw2)

theorem joinedLe_total : ∀ a b : JoinedRow, (joinedLe a b || joinedLe b a) = true := by
  intro a b
  simp only [joinedLe, Bool.or_eq_true, Bool.and_eq_true, beq_iff_eq]
  rcases strLt_total a.reading b.reading with h | h | h
  · exact Or.inl (Or.inl h)
  · rcases strLt_total a.word b.word with h2 | h2 | h2
    · exact Or.inl (Or.inr ⟨h, Or.inl h2⟩)
    · exact Or.inl (Or.inr ⟨h, Or.inr h2⟩)
    · exact Or.inr (Or.inr ⟨h.symm, Or.inl h2⟩)
  · exact Or.inr (Or.inl h)

theorem tsvLoop_spec : ∀ (rows : List JoinedRow) (generated acc : List String)
    (count : Nat),
    tsvLoop rows generated acc count =
      (acc.reverse ++ dedupFirst generated (rows.filterMap lineOf),
       count + (dedupFirst generated (rows.filterMap lineOf)).length) := by
  intro rows
  induction rows with
  | nil =>
      intro generated acc count
      simp [tsvLoop, dedupFirst]
  | cons r rest ih =>
      intro generated acc count
      simp only [tsvLoop, List.filterMap_cons]
      cases hl : lineOf r with
      | none => exact ih generated acc count
      | some line =>
          simp only [dedupFirst]
          by_cases hmem : line ∈ generated
          · rw [if_pos hmem, if_pos hmem]
            exact ih generated acc count
          · rw [if_neg hmem, if_neg hmem]
            rw [ih (line :: generated) (line :: acc) (count + 1)]
            simp only [List.reverse_cons, List.append_assoc, List.length_cons,
              List.singleton_append]
            rw [Prod.mk.injEq]
            exact ⟨rfl, by omega⟩

theorem mem_dedupFirst : ∀ (xs seen : List String) (x : String),
    x ∈ dedupFirst seen xs ↔ x ∈ xs ∧ x ∉ seen := by
  intro xs
  induction xs with
  | nil => intro seen x; simp [dedupFirst]
  | cons a xs ih =>
      intro seen x
      simp only [dedupFirst]
      by_cases hmem : a ∈ seen
      · rw [if_pos hmem, ih]
        constructor
        · rintro ⟨hx, hs⟩
          exact ⟨List.mem_cons_of_mem _ hx, hs⟩
        · rintro ⟨hx, hs⟩
          rcases List.mem_cons.mp hx with h | h
          · exact absurd (h ▸ hmem) hs
          · exact ⟨h, hs⟩
      · rw [if_neg hmem]
        constructor
        · intro hx
          rcases List.mem_cons.mp hx with h | h
          · exact ⟨h ▸ List.mem_cons_self _ _, h ▸ hmem⟩
          · obtain ⟨h1, h2⟩ := (ih _ _).mp h
            exact ⟨List.mem_cons_of_mem _ h1, fun hs => h2 (List.mem_cons_of_mem _ hs)⟩
        · rintro ⟨hx, hs⟩
          by_cases hxa : x = a
          · exact hxa ▸ List.mem_cons_self _ _
          · rcases List.mem_cons.mp hx with h | h
            · exact absurd h hxa
            · exact List.mem_cons_of_mem _ ((ih _ _).mpr
                ⟨h, by simp [List.mem_cons, hxa, hs]⟩)

theorem dedupFirst_nodup : ∀ (xs seen : List String), (dedupFirst seen xs).Nodup := by
  intro xs
  induction xs with
  | nil => intro seen; simp [dedupFirst]
  | cons a xs ih =>
      intro seen
      simp only [dedupFirst]
      by_cases hmem : a ∈ seen
      · rw [if_pos hmem]; exact ih seen
      · rw [if_neg hmem]
        refine List.nodup_cons.mpr ⟨?_, ih (a :: seen)⟩
        intro ha
        exact ((mem_dedupFirst _ _ _).mp ha).2 (List.mem_cons_self _ _)

/-- C4 — Export line generation: the emitted lines are exactly the
first-occurrence dedup of the per-row lines of the fetched join (read in
`(reading, word)` ascending order); the reported count equals the number
of lines written; no line repeats; a line is emitted iff some fetched row
maps to it; the fetch is sorted by `(reading, word)` ascending; and the
per-row mapping is `1920/1920/4001` for 固有名詞, `1851/1851/4000` for
普通名詞, and skip (no line, no error) for anything else.  (The stderr
warning for a skipped row is I/O outside this model.) -/
theorem c4_export_lines (db : DB) :
    (generate_tsv db).1 = dedupFirst [] ((fetchWordsWithPos db).filterMap lineOf) ∧
    (generate_tsv db).2 = (generate_tsv db).1.length ∧
    (generate_tsv db).1.Nodup ∧
    (∀ l, l ∈ (generate_tsv db).1 ↔ l ∈ (fetchWordsWithPos db).filterMap lineOf) ∧
    List.Pairwise (fun a b => joinedLe a b = true) (fetchWordsWithPos db) ∧
    (∀ r : JoinedRow, r.pos_name = "固有名詞" →
      lineOf r = some (r.reading ++ "\t1920\t1920\t4001\t" ++ r.word)) ∧
    (∀ r : JoinedRow, r.pos_name = "普通名詞" →
      lineOf r = some (r.reading ++ "\t1851\t1851\t4000\t" ++ r.word)) ∧
    (∀ r : JoinedRow, r.pos_name ≠ "固有名詞" → r.pos_name ≠ "普通名詞" →
      lineOf r = none) := by
  have hloop := tsvLoop_spec (fetchWordsWithPos db) [] [] 0
  have h1 : (generate_tsv db).1 =
      dedupFirst [] ((fetchWordsWithPos db).filterMap lineOf) := by
    unfold generate_tsv
    rw [hloop]
    simp
  refine ⟨h1, ?_, ?_, ?_, ?_, ?_, ?_, ?_⟩
  · unfold generate_tsv
    rw [hloop]
    simp
  · rw [h1]; exact dedupFirst_nodup _ _
  · intro l
    rw [h1, mem_dedupFirst]
    simp
  · exact List.sorted_mergeSort joinedLe_trans joinedLe_total (joinRows db)
  · intro r hr
    simp [lineOf, hr]
  · intro r hr
    simp [lineOf, hr]
  · intro r hr1 hr2
    simp [lineOf, hr1, hr2]

theorem joinRows_congr {db db' : DB}
    (hw : db.words.map (fun r => (r.reading, r.word, r.pos_code)) =
          db'.words.map (fun r => (r.reading, r.word, r.pos_code)))
    (hp : db.pos_codes = db'.pos_codes) : joinRows db = joinRows db' := by
  have key : ∀ dbx : DB, joinRows dbx =
      List.filterMap
        (fun t : String × String × Nat =>
          (dbx.pos_codes.find? fun p => p.1 == t.2.2).map fun p =>
            ⟨t.1, t.2.1, p.2⟩)
        (dbx.words.map (fun r => (r.reading, r.word, r.pos_code))) := by
    intro dbx
    rw [List.filterMap_map]
    rfl
  rw [key db, key db', hw, hp]

/-- C5 — Export determinism: the written bytes and the reported count are a
pure function of the fetched rows; in fact they depend only on the
`(reading, word, pos_code)` columns of the `words` table together with
`pos_codes` (the fixed cost mapping is baked into `lineOf`); and a run of
the exporter leaves the store untouched, so two back-to-back runs against
unchanged data are byte-identical. -/
theorem c5_export_determinism :
    (∀ db db' : DB, fetchWordsWithPos db = fetchWordsWithPos db' →
      tsvText (generate_tsv db).1 = tsvText (generate_tsv db').1 ∧
      (generate_tsv db).2 = (generate_tsv db').2) ∧
    (∀ db db' : DB,
      db.words.map (fun r => (r.reading, r.word, r.pos_code)) =
        db'.words.map (fun r => (r.reading, r.word, r.pos_code)) →
      db.pos_codes = db'.pos_codes →
      tsvText (generate_tsv db).1 = tsvText (generate_tsv db').1) ∧
    (∀ db : DB, (exportRun db).1 = db ∧
      exportRun ((exportRun db).1) = exportRun db) := by
  refine ⟨?_, ?_, ?_⟩
  · intro db db' h
    unfold generate_tsv
    rw [h]
    exact ⟨rfl, rfl⟩
  · intro db db' hw hp
    unfold generate_tsv fetchWordsWithPos
    rw [joinRows_congr hw hp]
  · intro db
    exact ⟨rfl, rfl⟩

/-- C10 — Backend equivalence of the duck-typed wrapper: for every store,
`PostgreSQLWrapper.rpc` invoked with the name `get_words_with_pos` returns
exactly the rows, in exactly the order, of the join query the direct-SQL
exporter runs (`fetchWordsWithPos`) — the two definitions are translated
independently from the two source sites and coincide — and every other
function name raises the 未対応のRPC関数 `ValueError`. -/
theorem c10_wrapper_rpc_equiv (db : DB) :
    PostgreSQLWrapper.rpc db "get_words_with_pos" =
      .ok (fetchWordsWithPos db) ∧
    (∀ name, name ≠ "get_words_with_pos" →
      PostgreSQLWrapper.rpc db name =
        .error ("未対応のRPC関数: " ++ name)) := by
  constructor
  · rfl
  · intro name hne
    unfold PostgreSQLWrapper.rpc
    rw [if_neg]
    simpa using hne

/-! ## Lemmas: configuration merge -/

theorem truthy_ne_empty {x : Option String} (h : truthyStr x = true) :
    x ≠ some "" := by
  cases x with
  | none => simp [truthyStr] at h
  | some v =>
      simp only [truthyStr, ne_eq, Option.some_inj]
      simp only [truthyStr] at h
      intro hv
      rw [hv] at h
      simp at h

theorem env_lookup_ne_empty {raw dflt : Option String} (h : dflt ≠ some "") :
    _env raw dflt ≠ some "" := by
  cases raw with
  | none => exact h
  | some v =>
      simp only [_env]
      by_cases hv : v == ""
      · rw [if_pos hv]; exact h
      · rw [if_neg hv]
        intro hc
        rw [Option.some_inj.mp hc] at hv
        simp at hv

theorem scrubEmpty_of_ne {x : Option String} (h : x ≠ some "") :
    scrubEmpty x = x := by
  cases x with
  | none => rfl
  | some v =>
      simp only [scrubEmpty]
      rw [if_neg]
      intro hv
      exact h (by rw [beq_iff_eq.mp hv])

theorem scrubEmpty_ne_empty (x : Option String) : scrubEmpty x ≠ some "" := by
  cases x with
  | none => simp [scrubEmpty]
  | some v =>
      simp only [scrubEmpty]
      by_cases hv : v == ""
      · rw [if_pos hv]; simp
      · rw [if_neg hv]
        intro hc
        rw [Option.some_inj.mp hc] at hv
        simp at hv

theorem get_env_config_fields {env : EnvVars} {cfg0 : PgConfig}
    (h : get_env_config env = some cfg0) :
    cfg0.host = _env env.pg_host (some "localhost") ∧
    cfg0.database = _env env.pg_database none ∧
    cfg0.user = _env env.pg_user none ∧
    cfg0.password = _env env.pg_password none := by
  unfold get_env_config at h
  cases hp : _env env.pg_port none with
  | none =>
      rw [hp] at h
      obtain rfl := Option.some_inj.mp h
      exact ⟨rfl, rfl, rfl, rfl⟩
  | some s =>
      rw [hp] at h
      dsimp only at h
      cases hi : s.toInt? with
      | none => rw [hi] at h; simp at h
      | some p =>
          rw [hi] at h
          obtain rfl := Option.some_inj.mp h
          exact ⟨rfl, rfl, rfl, rfl⟩

theorem merge_fields {args : CliArgs} {env : EnvVars} {cfg0 : PgConfig}
    (hge : get_env_config env = some cfg0) :
    _merge_cli_env args env = some
      ⟨scrubEmpty (if truthyStr args.host then args.host else cfg0.host),
       (if truthyInt args.port then args.port else cfg0.port),
       scrubEmpty (if truthyStr args.database then args.database else cfg0.database),
       scrubEmpty (if truthyStr args.user then args.user else cfg0.user),
       scrubEmpty (if truthyStr args.password then args.password else cfg0.password)⟩ := by
  unfold _merge_cli_env
  rw [hge]
  dsimp only
  cases truthyStr args.host <;> cases truthyInt args.port <;>
    cases truthyStr args.database <;> cases truthyStr args.user <;>
    cases truthyStr args.password <;> rfl

/-- C8 — Configuration merge: for every connection field — host, port,
database, user, password — a provided nonzero/nonempty CLI flag overrides
the environment-derived value, otherwise the environment lookup supplies
the field (for `port`, that env-derived value is pinned down below:
`int(PG_PORT)` when the variable is set and nonempty, the default `5432`
otherwise); an empty string from either source — `PG_PORT` included —
behaves exactly as if the value were absent, and no merged string field
ever carries an explicit empty string (empty maps to `None`); and when
the merged database name is falsy, connection setup stops with the
`ValueError` whose message names both `--database` and `PG_DATABASE` — a
configuration is handed to `psycopg2.connect` (`ConnAttempt.connect`)
only with a non-falsy database name. -/
theorem c8_config_merge (args : CliArgs) (env : EnvVars) :
    (∀ cfg, _merge_cli_env args env = some cfg →
      (truthyStr args.host = true → cfg.host = args.host) ∧
      (truthyStr args.host = false → cfg.host = _env env.pg_host (some "localhost")) ∧
      (truthyStr args.database = true → cfg.database = args.database) ∧
      (truthyStr args.database = false → cfg.database = _env env.pg_database none) ∧
      (truthyStr args.user = true → cfg.user = args.user) ∧
      (truthyStr args.user = false → cfg.user = _env env.pg_user none) ∧
      (truthyStr args.password = true → cfg.password = args.password) ∧
      (truthyStr args.password = false → cfg.password = _env env.pg_password none) ∧
      (truthyInt args.port = true → cfg.port = args.port) ∧
      (truthyInt args.port = false →
        (get_env_config env).map PgConfig.port = some cfg.port)) ∧
    (_merge_cli_env { args with database := some "" } env =
      _merge_cli_env { args with database := none } env) ∧
    (_merge_cli_env args { env with pg_database := some "" } =
      _merge_cli_env args { env with pg_database := none }) ∧
    (_merge_cli_env { args with host := some "" } env =
      _merge_cli_env { args with host := none } env) ∧
    (_merge_cli_env args { env with pg_host := some "" } =
      _merge_cli_env args { env with pg_host := none }) ∧
    (∀ cfg, _merge_cli_env args env = some cfg →
      cfg.host ≠ some "" ∧ cfg.database ≠ some "" ∧
      cfg.user ≠ some "" ∧ cfg.password ≠ some "") ∧
    (∀ cfg, _merge_cli_env args env = some cfg →
      optionFalsy cfg.database = true →
      get_db_connection_from_args args env = .configError dbMissingMsg) ∧
    (mentions dbMissingMsg "--database" = true ∧
      mentions dbMissingMsg "PG_DATABASE" = true) ∧
    (∀ cfg, get_db_connection_from_args args env = .connect cfg →
      cfg.database ≠ none ∧ cfg.database ≠ some "") ∧
    (_merge_cli_env args { env with pg_port := some "" } =
      _merge_cli_env args { env with pg_port := none }) ∧
    (∀ cfg0, get_env_config env = some cfg0 →
      cfg0.port = (match _env env.pg_port none with
        | none => some 5432
        | some s => s.toInt?)) := by
  refine ⟨?_, rfl, rfl, rfl, rfl, ?_, ?_, ⟨by decide, by decide⟩, ?_, rfl, ?_⟩
  · intro cfg hcfg
    cases hge : get_env_config env with
    | none =>
        unfold _merge_cli_env at hcfg
        rw [hge] at hcfg
        simp at hcfg
    | some cfg0 =>
        rw [merge_fields hge] at hcfg
        obtain ⟨hh, hd, hu, hw⟩ := get_env_config_fields hge
        obtain rfl := Option.some_inj.mp hcfg
        refine ⟨?_, ?_, ?_, ?_, ?_, ?_, ?_, ?_, ?_, ?_⟩ <;> intro hx <;> dsimp only
        · rw [if_pos hx]
          exact scrubEmpty_of_ne (truthy_ne_empty hx)
        · rw [if_neg (by simp [hx]), hh]
          exact scrubEmpty_of_ne (env_lookup_ne_empty (by simp))
        · rw [if_pos hx]
          exact scrubEmpty_of_ne (truthy_ne_empty hx)
        · rw [if_neg (by simp [hx]), hd]
          exact scrubEmpty_of_ne (env_lookup_ne_empty (by simp))
        · rw [if_pos hx]
          exact scrubEmpty_of_ne (truthy_ne_empty hx)
        · rw [if_neg (by simp [hx]), hu]
          exact scrubEmpty_of_ne (env_lookup_ne_empty (by simp))
        · rw [if_pos hx]
          exact scrubEmpty_of_ne (truthy_ne_empty hx)
        · rw [if_neg (by simp [hx]), hw]
          exact scrubEmpty_of_ne (env_lookup_ne_empty (by simp))
        · rw [if_pos hx]
        · rw [if_neg (by simp [hx])]
          rfl
  · intro cfg hcfg
    cases hge : get_env_config env with
    | none =>
        unfold _merge_cli_env at hcfg
        rw [hge] at hcfg
        simp at hcfg
    | some cfg0 =>
        rw [merge_fields hge] at hcfg
        obtain rfl := Option.some_inj.mp hcfg
        exact ⟨scrubEmpty_ne_empty _, scrubEmpty_ne_empty _,
               scrubEmpty_ne_empty _, scrubEmpty_ne_empty _⟩
  · intro cfg hcfg hfal
    unfold get_db_connection_from_args
    rw [hcfg]
    dsimp only
    rw [if_pos hfal]
  · intro cfg hconn
    unfold get_db_connection_from_args at hconn
    cases hm : _merge_cli_env args env with
    | none => rw [hm] at hconn; simp at hconn
    | some cfg1 =>
        rw [hm] at hconn
        dsimp only at hconn
        by_cases hfal : optionFalsy cfg1.database = true
        · rw [if_pos hfal] at hconn
          simp at hconn
        · rw [if_neg hfal] at hconn
          obtain rfl := (by injection hconn : cfg1 = cfg)
          constructor
          · intro hn
            exact hfal (by rw [hn]; rfl)
          · intro hn
            exact hfal (by rw [hn]; rfl)
  · intro cfg0 hge
    unfold get_env_config at hge
    revert hge
    cases _env env.pg_port none with
    | none =>
        intro hge
        obtain rfl := Option.some_inj.mp hge
        rfl
    | some s =>
        dsimp only
        cases s.toInt? with
        | none =>
            intro hge
            simp at hge
        | some p =>
            intro hge
            obtain rfl := Option.some_inj.mp hge
            rfl

/-! ## Lemmas: retry loop -/

theorem retryAux_attempts_le {ε ρ : Type} (runQuery : Nat → Except ε ρ) :
    ∀ (fuel attempt : Nat), (retryAux runQuery attempt fuel).attemptsMade ≤ fuel := by
  intro fuel
  induction fuel with
  | zero => intro attempt; simp [retryAux]
  | succ n ih =>
      intro attempt
      simp only [retryAux]
      cases runQuery attempt with
      | ok r => simp
      | error e =>
          dsimp only
          by_cases hn : n = 0
          · rw [if_pos hn]; simp
          · rw [if_neg hn]
            have := ih (attempt + 1)
            simpa using Nat.succ_le_succ this

theorem retryAux_all_fail {ε ρ : Type} (runQuery : Nat → Except ε ρ)
    (es : Nat → ε) :
    ∀ (fuel attempt : Nat), 1 ≤ fuel →
      (∀ i, attempt ≤ i → i < attempt + fuel → runQuery i = .error (es i)) →
      retryAux runQuery attempt fuel =
        ⟨fuel, List.range' attempt fuel,
         (List.range' attempt (fuel - 1)).map (fun i => (i, es i)),
         some (.error (es (attempt + fuel - 1)))⟩ := by
  intro fuel
  induction fuel with
  | zero => intro attempt h1; omega
  | succ n ih =>
      intro attempt h1 hfail
      have hq : runQuery attempt = .error (es attempt) :=
        hfail attempt (Nat.le_refl _) (by omega)
      simp only [retryAux, hq]
      by_cases hn : n = 0
      · subst hn
        rw [if_pos rfl]
        simp [List.range'_succ]
      · rw [if_neg hn]
        rw [ih (attempt + 1) (by omega)
          (fun i hi1 hi2 => hfail i (by omega) (by omega))]
        have h2 : List.range' attempt (n + 1) = attempt :: List.range' (attempt + 1) n := by
          rw [List.range'_succ]
        have h3 : List.range' attempt (n + 1 - 1) =
            attempt :: List.range' (attempt + 1) (n - 1) := by
          have : n + 1 - 1 = (n - 1) + 1 := by omega
          rw [this, List.range'_succ]
        simp only [h2, h3, List.map_cons]
        have h4 : attempt + 1 + n - 1 = attempt + (n + 1) - 1 := by omega
        rw [h4]

theorem retryAux_first_success {ε ρ : Type} (runQuery : Nat → Except ε ρ)
    (es : Nat → ε) (r : ρ) :
    ∀ (j fuel attempt : Nat), j < fuel → runQuery (attempt + j) = .ok r →
      (∀ i, attempt ≤ i → i < attempt + j → runQuery i = .error (es i)) →
      retryAux runQuery attempt fuel =
        ⟨j + 1, List.range' attempt j,
         (List.range' attempt j).map (fun i => (i, es i)), some (.ok r)⟩ := by
  intro j
  induction j with
  | zero =>
      intro fuel attempt hj hok _
      obtain ⟨n, rfl⟩ := Nat.exists_eq_add_of_lt hj
      simp only [Nat.add_zero] at hok
      simp [retryAux, hok]
  | succ m ih =>
      intro fuel attempt hj hok hfail
      have hq : runQuery attempt = .error (es attempt) :=
        hfail attempt (Nat.le_refl _) (by omega)
      obtain ⟨fuel', rfl⟩ : ∃ fuel', fuel = fuel' + 1 :=
        ⟨fuel - 1, by omega⟩
      simp only [retryAux, hq]
      have hn : fuel' ≠ 0 := by omega
      rw [if_neg hn]
      rw [ih fuel' (attempt + 1) (by omega)
        (by rw [show attempt + 1 + m = attempt + (m + 1) from by omega]; exact hok)
        (fun i hi1 hi2 => hfail i (by omega) (by omega))]
      have h2 : List.range' attempt (m + 1) = attempt :: List.range' (attempt + 1) m := by
        rw [List.range'_succ]
      simp [h2]

/-- C9 — Retry wrapper: `execute_with_retry` makes at most `max_retries`
attempts (the Python default is 3); when every attempt fails, every
attempt's failure triggers a `conn.rollback()`, each failure before the
last is logged with its attempt number and cause, and the final attempt's
original error propagates unchanged; when attempt `k` is the first to
succeed, exactly `k` attempts run (the earlier `k - 1` failures each roll
back and are logged) and the fetched rows are returned at once.  Between
attempts the loop performs no other action — retries are immediate, with
no backoff delay. -/
theorem c9_execute_with_retry {ε ρ : Type} (runQuery : Nat → Except ε ρ)
    (m : Nat) (es : Nat → ε) (r : ρ) (k : Nat) :
    ((execute_with_retry runQuery m).attemptsMade ≤ m) ∧
    (1 ≤ m → (∀ i, 1 ≤ i → i ≤ m → runQuery i = .error (es i)) →
      execute_with_retry runQuery m =
        ⟨m, List.range' 1 m,
         (List.range' 1 (m - 1)).map (fun i => (i, es i)),
         some (.error (es m))⟩) ∧
    (1 ≤ k → k ≤ m → runQuery k = .ok r →
      (∀ i, 1 ≤ i → i < k → runQuery i = .error (es i)) →
      execute_with_retry runQuery m =
        ⟨k, List.range' 1 (k - 1),
         (List.range' 1 (k - 1)).map (fun i => (i, es i)), some (.ok r)⟩) := by
  refine ⟨retryAux_attempts_le runQuery m 1, ?_, ?_⟩
  · intro h1 hfail
    unfold execute_with_retry
    rw [retryAux_all_fail runQuery es m 1 h1
      (fun i hi1 hi2 => hfail i hi1 (by omega))]
    have : 1 + m - 1 = m := by omega
    rw [this]
  · intro hk1 hkm hok hfail
    unfold execute_with_retry
    rw [retryAux_first_success runQuery es r (k - 1) m 1 (by omega)
      (by rw [show 1 + (k - 1) = k from by omega]; exact hok)
      (fun i hi1 hi2 => hfail i hi1 (by omega))]
    have : k - 1 + 1 = k := by omega
    rw [this]

/-! ## Witnesses -/

/-- Witness for C1 at the spec's example row imported twice into a fresh
schema with transaction ids 3 and 4. -/
theorem c1_idempotent_upsert_witness :
    ∃ s1 c1 s2 c2,
      import_csv freshSession 3 0 noFail
        [["たなか", "田中", "固有名詞", "地名", "−"]] = some (s1, c1) ∧
      import_csv s1 4 7 noFail
        [["たなか", "田中", "固有名詞", "地名", "−"]] = some (s2, c2) ∧
      visWords s2.current = visWords s1.current ∧
      s2.committed = s2.current ∧
      c2 = ⟨0, [["たなか", "田中", "固有名詞", "地名", "−"]].length, 0, 0⟩ :=
  c1_idempotent_upsert freshSession [["たなか", "田中", "固有名詞", "地名", "−"]]
    3 0 4 7 (by decide) (by decide)
    (by
      intro r hr
      rw [List.mem_singleton] at hr
      subst hr
      exact ⟨"たなか", "田中", "固有名詞", "地名", "−", rfl, by rfl⟩)

/-- Witness for C2's general conjunct: the example row, processed
successfully in transaction 3, is classified `upd` and therefore not
`ins`. -/
theorem c2_insert_misclassified_witness :
    (processRow freshSession 3 0 false
        ["たなか", "田中", "固有名詞", "地名", "−"]).map (·.2) =
      some RowOutcome.upd ∧
    RowOutcome.upd ≠ RowOutcome.ins :=
  ⟨by rfl,
   c2_insert_misclassified.2 freshSession 3 0 "たなか" "田中" "固有名詞" "地名"
     "−" 1 _ RowOutcome.upd (by decide) (by rfl) (by rfl)⟩

/-- Witness for the amended C3 at a concrete failing first row on a fresh
schema. -/
theorem c3_error_rollback_continue_witness :
    importAux 3 0 (fun _ => true) freshSession 1 ⟨0, 0, 0, 0⟩
        [["あ", "亜", "固有名詞", "x", "c"]] =
      importAux 3 0 (fun _ => true)
        (Session.rollback (get_or_create_attr_id freshSession "x").2) 2
        ⟨0, 0, 0, 1⟩ [] ∧
    (Session.rollback (get_or_create_attr_id freshSession "x").2).current =
      (get_or_create_attr_id freshSession "x").2.committed :=
  c3_error_rollback_continue freshSession 3 0 "あ" "亜" "固有名詞" "x" "c" 1
    [] 1 (fun _ => true) ⟨0, 0, 0, 0⟩ (by rfl) rfl

/-- Witness for C6: a 4-field row and an unknown-part-of-speech row are
each skipped on a fresh schema with the session unchanged. -/
theorem c6_skip_semantics_witness :
    importAux 3 0 noFail freshSession 1 ⟨0, 0, 0, 0⟩ [["a", "b", "c", "d"]] =
      importAux 3 0 noFail freshSession 2 ⟨0, 0, 1, 0⟩ [] ∧
    importAux 3 0 noFail freshSession 1 ⟨0, 0, 0, 0⟩
        [["あ", "亜", "未知語", "x", "c"]] =
      importAux 3 0 noFail freshSession 2 ⟨0, 0, 1, 0⟩ [] :=
  ⟨(c6_skip_semantics freshSession 3 0 noFail 1 ⟨0, 0, 0, 0⟩ []).1
      ["a", "b", "c", "d"] (by decide),
   (c6_skip_semantics freshSession 3 0 noFail 1 ⟨0, 0, 0, 0⟩ []).2
      "あ" "亜" "未知語" "x" "c" (by rfl)⟩

/-- Witness for C7 at a fresh schema: creating `"x"`, hitting it on
re-resolution, recovering from a raced insert, and propagating when the
re-read finds nothing. -/
theorem c7_attr_resolve_or_create_witness :
    get_or_create_attr_id freshSession "x" = (1,
      Session.commit ⟨freshSession.committed,
        { freshSession.current with
            attr_codes := freshSession.current.attr_codes ++ [(1, "x")],
            attr_next := 2 }⟩) ∧
    get_or_create_attr_id_raceable freshSession "x" true
        { emptyDB with attr_codes := [(7, "x")] } =
      .ok (7, ⟨{ emptyDB with attr_codes := [(7, "x")] },
               { emptyDB with attr_codes := [(7, "x")] }⟩) ∧
    get_or_create_attr_id_raceable freshSession "x" true emptyDB = .error () ∧
    get_or_create_attr_id ((get_or_create_attr_id freshSession "x").2) "x" =
      ((get_or_create_attr_id freshSession "x").1,
       (get_or_create_attr_id freshSession "x").2) :=
  ⟨(c7_attr_resolve_or_create freshSession "x" emptyDB).2.2.1 (by rfl),
   (c7_attr_resolve_or_create freshSession "x"
      { emptyDB with attr_codes := [(7, "x")] }).2.2.2.1 7 (by rfl) (by rfl),
   (c7_attr_resolve_or_create freshSession "x" emptyDB).2.2.2.2.1
      (by rfl) (by rfl),
   (c7_attr_resolve_or_create freshSession "x" emptyDB).2.2.2.2.2⟩

/-- Witness for C4's per-row mapping conjuncts at concrete fetched rows. -/
theorem c4_export_lines_witness :
    lineOf ⟨"た", "田", "固有名詞"⟩ =
      some ("た" ++ "\t1920\t1920\t4001\t" ++ "田") ∧
    lineOf ⟨"た", "田", "普通名詞"⟩ =
      some ("た" ++ "\t1851\t1851\t4000\t" ++ "田") ∧
    lineOf ⟨"た", "田", "形容詞"⟩ = none ∧
    (generate_tsv emptyDB).2 = (generate_tsv emptyDB).1.length :=
  ⟨(c4_export_lines emptyDB).2.2.2.2.2.1 ⟨"た", "田", "固有名詞"⟩ rfl,
   (c4_export_lines emptyDB).2.2.2.2.2.2.1 ⟨"た", "田", "普通名詞"⟩ rfl,
   (c4_export_lines emptyDB).2.2.2.2.2.2.2 ⟨"た", "田", "形容詞"⟩
     (by decide) (by decide),
   (c4_export_lines emptyDB).2.1⟩

/-- Witness for C5 at a concrete store: purity over the fetch and a
back-to-back double run. -/
theorem c5_export_determinism_witness :
    (tsvText (generate_tsv emptyDB).1 = tsvText (generate_tsv emptyDB).1 ∧
      (generate_tsv emptyDB).2 = (generate_tsv emptyDB).2) ∧
    ((exportRun emptyDB).1 = emptyDB ∧
      exportRun ((exportRun emptyDB).1) = exportRun emptyDB) :=
  ⟨c5_export_determinism.1 emptyDB emptyDB rfl,
   c5_export_determinism.2.2 emptyDB⟩

/-- Witness for C10: the wrapper rejects an unsupported function name on a
concrete store. -/
theorem c10_wrapper_rpc_equiv_witness :
    PostgreSQLWrapper.rpc emptyDB "get_words_with_pos" =
      .ok (fetchWordsWithPos emptyDB) ∧
    PostgreSQLWrapper.rpc emptyDB "nope" =
      .error ("未対応のRPC関数: " ++ "nope") :=
  ⟨(c10_wrapper_rpc_equiv emptyDB).1,
   (c10_wrapper_rpc_equiv emptyDB).2 "nope" (by decide)⟩

/-- Witness for C8: with no CLI flags and only `PG_DATABASE=""` in the
environment, connection setup stops with the missing-database error; with
no `--port` flag the merged port is the env-derived one, which for an
unset `PG_PORT` is the default `5432`. -/
theorem c8_config_merge_witness :
    get_db_connection_from_args ⟨none, none, none, none, none⟩
        ⟨none, none, some "", none, none⟩ = .configError dbMissingMsg ∧
    (mentions dbMissingMsg "--database" = true ∧
      mentions dbMissingMsg "PG_DATABASE" = true) ∧
    (get_env_config ⟨none, none, some "", none, none⟩).map PgConfig.port =
      some (some 5432) ∧
    (⟨some "localhost", some 5432, none, none, none⟩ : PgConfig).port =
      (match _env (none : Option String) none with
        | none => some 5432
        | some s => s.toInt?) :=
  ⟨(c8_config_merge ⟨none, none, none, none, none⟩
      ⟨none, none, some "", none, none⟩).2.2.2.2.2.2.1
      ⟨some "localhost", some 5432, none, none, none⟩ (by rfl) (by rfl),
   (c8_config_merge ⟨none, none, none, none, none⟩
      ⟨none, none, some "", none, none⟩).2.2.2.2.2.2.2.1,
   ((c8_config_merge ⟨none, none, none, none, none⟩
      ⟨none, none, some "", none, none⟩).1
      ⟨some "localhost", some 5432, none, none, none⟩ (by rfl)).2.2.2.2.2.2.2.2.2
      (by rfl),
   (c8_config_merge ⟨none, none, none, none, none⟩
      ⟨none, none, some "", none, none⟩).2.2.2.2.2.2.2.2.2.2
      ⟨some "localhost", some 5432, none, none, none⟩ (by rfl)⟩

/-- Witness for C9: a query failing on attempt 1 and succeeding on
attempt 2, with `max_retries = 3`; and a query that always fails. -/
theorem c9_execute_with_retry_witness :
    execute_with_retry (fun i => if i < 2 then .error (10 * i) else .ok 42) 3 =
      ⟨2, [1], [(1, 10)], some (.ok 42)⟩ ∧
    execute_with_retry (fun i : Nat => (.error (10 * i) : Except Nat Nat)) 3 =
      ⟨3, [1, 2, 3], [(1, 10), (2, 20)], some (.error 30)⟩ := by
  constructor
  · have h := (c9_execute_with_retry
        (fun i => if i < 2 then .error (10 * i) else .ok 42) 3
        (fun i => 10 * i) 42 2).2.2 (by omega) (by omega) (by rfl)
        (by
          intro i h1 h2
          have : i = 1 := by omega
          subst this
          rfl)
    rw [h]
    rfl
  · have h := (c9_execute_with_retry
        (fun i : Nat => (.error (10 * i) : Except Nat Nat)) 3
        (fun i => 10 * i) 0 0).2.1 (by omega)
        (fun i h1 h2 => rfl)
    rw [h]
    rfl
